import Mathlib

/-!
# The GPUSPH integrator engine: commands, phases and the phase cursor

A shallow embedding of `src/command_type.h` (the command descriptor) and of
`src/Integrator.h` (`CommandSequence`, `Integrator::Phase`, `Integrator`).

Conventions of the embedding.

* C++ objects mutated in place become values; a method that mutates `*this`
  returns the new object.  A method that may throw returns its result as an
  `Except Error _` *together with* the object as the exception leaves it, so
  that what a failing call changes can be stated.
* `size_t` cursors and indices are `Nat`.  Every increment in the engine
  (`++m_cmd_idx`, `m_phase_idx + 1`) is executed only after `vector::at` has
  accepted the old value, which is then smaller than the size of a vector, so
  it cannot wrap around.
* Function pointers (`should_run_t`, `is_done_t`, `reset_t`, `dt_operator_t`)
  are values naming the function pointed to.  The static member functions of
  `Phase` have a name of their own; every other function of the program is
  designated by a number and looked up in a `UserFunctions` table.
* A `Phase*` into `m_phase` is the position of the phase in `m_phase`.
-/

namespace GPUSPH

deriving instance DecidableEq for Except

/-! ## `command_type.h` -/

/-- An enumerator of `enum CommandName`: the code of a command.  The
enumerators are generated from `define_commands.h`, one per `DEFINE_COMMAND`
line, so the code of a command is the position of its line. -/
abbrev CommandName := Nat

/-- The type of flag words (`flag_t` of `common_types.h`). -/
abbrev flag_t := Nat

/-- Specification of buffer usage by commands. -/
inductive CommandBufferUsage
  | NO_BUFFER_USAGE
  | STATIC_BUFFER_USAGE
  | DYNAMIC_BUFFER_USAGE
  deriving DecidableEq, Repr

/-- One line `DEFINE_COMMAND(_command, _internal, _usage)` of
`define_commands.h`; `_command` is the position of the line. -/
structure CommandDef where
  internal : Bool
  usage : CommandBufferUsage
  deriving DecidableEq, Repr

/-- The content of `define_commands.h`, which is not among the sources: the
table is a parameter of everything that includes it. -/
abbrev CommandTable := List CommandDef

/-- The switch of `isCommandInternal`: one `case` per line of the table,
`default: return false`. -/
def isCommandInternal (table : CommandTable) (cmd : CommandName) : Bool :=
  match table[cmd]? with
  | some d => d.internal
  | none => false

/-- A struct specifying buffers within a state. -/
structure StateBuffers where
  state : String
  buffers : flag_t
  deriving DecidableEq, Repr

/-- A command buffer usage specification. -/
abbrev CommandBufferArgument := List StateBuffers

/-- A `dt_operator_t`: pointer to a function `float (*)(GlobalData const*)`.
The engine stores the pointer and never calls it. -/
inductive dt_operator_t
  | undefined_dt
  | user (fn : Nat)
  deriving DecidableEq, Repr

/-- Information about the integrator step a command belongs to. -/
structure StepInfo where
  number : Int
  last : Bool
  deriving DecidableEq, Repr

/-- The constructor `StepInfo(int n)`. -/
def StepInfo.new (n : Int) : StepInfo :=
  { number := n, last := false }

/-- The constructor `StepInfo()`, whose argument defaults to `-1`. -/
def StepInfo.default : StepInfo :=
  StepInfo.new (-1)

/-- Modelled from the spec: the constant `NO_FLAGS` of `common_types.h`, which
is not among the sources; the spec says a new descriptor has "flags = none". -/
def NO_FLAGS : flag_t := 0

/-- The complement `~f` of a flag word of `flag_bits` bits.  The width of
`flag_t` is set by `common_types.h`, which is not among the sources, and is a
parameter. -/
def flag_not (flag_bits : Nat) (f : flag_t) : flag_t :=
  2 ^ flag_bits - 1 - f % 2 ^ flag_bits

/-- A full command structure. -/
structure CommandStruct where
  command : CommandName
  step : StepInfo
  src : String
  dst : String
  dt : dt_operator_t
  flags : flag_t
  reads : CommandBufferArgument
  updates : CommandBufferArgument
  writes : CommandBufferArgument
  only_internal : Bool
  deriving DecidableEq, Repr

/-- The constructor `CommandStruct(CommandName cmd)`. -/
def CommandStruct.new (table : CommandTable) (cmd : CommandName) : CommandStruct :=
  { command := cmd
    step := StepInfo.default
    src := ""
    dst := ""
    dt := dt_operator_t.undefined_dt
    flags := NO_FLAGS
    reads := []
    updates := []
    writes := []
    only_internal := isCommandInternal table cmd }

namespace CommandStruct

/-! ### The setters of `CommandStruct` -/

def set_step (c : CommandStruct) (step_ : StepInfo) : CommandStruct :=
  { c with step := step_ }

def set_src (c : CommandStruct) (src_ : String) : CommandStruct :=
  { c with src := src_ }

def set_dst (c : CommandStruct) (dst_ : String) : CommandStruct :=
  { c with dst := dst_ }

def set_dt (c : CommandStruct) (func : dt_operator_t) : CommandStruct :=
  { c with dt := func }

/-- The assignment `flags |= f`. -/
def set_flags (c : CommandStruct) (f : flag_t) : CommandStruct :=
  { c with flags := c.flags ||| f }

/-- The assignment `flags &= ~f`, on flag words of `flag_bits` bits. -/
def clear_flags (flag_bits : Nat) (c : CommandStruct) (f : flag_t) : CommandStruct :=
  { c with flags := c.flags &&& flag_not flag_bits f }

def reading (c : CommandStruct) (state : String) (buffers : flag_t) : CommandStruct :=
  { c with reads := c.reads ++ [StateBuffers.mk state buffers] }

def updating (c : CommandStruct) (state : String) (buffers : flag_t) : CommandStruct :=
  { c with updates := c.updates ++ [StateBuffers.mk state buffers] }

def writing (c : CommandStruct) (state : String) (buffers : flag_t) : CommandStruct :=
  { c with writes := c.writes ++ [StateBuffers.mk state buffers] }

end CommandStruct

/-! ### Resolution of buffer declarations -/

/-- Modelled from the spec: the class `BufferList`, which `command_type.h` only
declares.  A buffer list is reduced to the set of the keys of the buffers it
holds, as a flag word; merging two lists is the union of their keys. -/
abbrev BufferList := flag_t

/-- Modelled from the spec: the state table of the class `ParticleSystem`,
which `command_type.h` only declares: the named states, each with the buffers
it holds. -/
structure ParticleSystem where
  states : List (String × BufferList)
  deriving DecidableEq, Repr

/-- The buffers held by the state `name`, when there is such a state. -/
def ParticleSystem.state (ps : ParticleSystem) (name : String) : Option BufferList :=
  ps.states.lookup name

/-- Modelled from the spec: the errors of the resolution of a declaration, a
missing state or a missing buffer. -/
inductive BufferError
  | missing_state
  | missing_buffer
  deriving DecidableEq, Repr

/-- Modelled from the spec: `extractExistingBufferList(ps, state, buffers)`,
declared in `command_type.h` and defined outside the sources.  The spec:
resolving a (state, buffer-set) pair against the state table fails with a
missing state or buffer error if any requested buffer is absent in that state;
all buffers are required to exist. -/
def extractExistingBufferList (ps : ParticleSystem) (state : String) (buffers : flag_t) :
    Except BufferError BufferList :=
  match ps.state state with
  | none => .error BufferError.missing_state
  | some present =>
    if buffers &&& present = buffers then .ok buffers else .error BufferError.missing_buffer

/-- Modelled from the spec: the overload of `extractExistingBufferList` for a
`StateBuffers`, which resolves the pair it holds. -/
def extractExistingBufferList_StateBuffers (ps : ParticleSystem) (arg : StateBuffers) :
    Except BufferError BufferList :=
  extractExistingBufferList ps arg.state arg.buffers

/-- Modelled from the spec: the overload of `extractExistingBufferList` for a
`CommandBufferArgument`.  The spec: a declaration list is resolved by resolving
each member and union-merging the results, with the same failure semantics. -/
def extractExistingBufferList_CommandBufferArgument (ps : ParticleSystem) :
    CommandBufferArgument → Except BufferError BufferList
  | [] => .ok 0
  | sb :: rest =>
    match extractExistingBufferList_StateBuffers ps sb with
    | .error e => .error e
    | .ok l =>
      match extractExistingBufferList_CommandBufferArgument ps rest with
      | .error e => .error e
      | .ok r => .ok (l ||| r)

/-- Modelled from the spec: `extractGeneralBufferList(ps, arg)`, declared in
`command_type.h` and defined outside the sources.  The spec: the relaxed
variant never fails on missing buffers, only on missing state; the header: no
check is done on the existence and validity of the buffers.  The result holds
the requested buffers that the state has. -/
def extractGeneralBufferList (ps : ParticleSystem) :
    CommandBufferArgument → Except BufferError BufferList
  | [] => .ok 0
  | sb :: rest =>
    match ps.state sb.state with
    | none => .error BufferError.missing_state
    | some present =>
      match extractGeneralBufferList ps rest with
      | .error e => .error e
      | .ok r => .ok ((sb.buffers &&& present) ||| r)

/-- Modelled from the spec: `extractGeneralBufferList(ps, arg, model)`, the
version with dynamic buffer specification.  The spec: a buffer set meaning
"unspecified" (`BUFFER_NONE`, a constant of `define_buffers.h` taken as a
parameter) is expanded to the buffers present in the reference list. -/
def extractGeneralBufferList_model (BUFFER_NONE : flag_t) (ps : ParticleSystem)
    (arg : CommandBufferArgument) (model : BufferList) : Except BufferError BufferList :=
  extractGeneralBufferList ps
    (arg.map (fun sb => if sb.buffers = BUFFER_NONE then { sb with buffers := model } else sb))

/-- A declaration names a buffer that is absent from the state it names, which
exists. -/
def names_absent_buffer (ps : ParticleSystem) (sb : StateBuffers) : Prop :=
  ∃ present, ps.state sb.state = some present ∧ sb.buffers &&& present ≠ sb.buffers

/-! ## `Integrator.h`: `CommandSequence` -/

/-- The exceptions of the engine: `std::out_of_range`, thrown by `vector::at`. -/
inductive Error
  | out_of_range
  deriving DecidableEq, Repr

/-- A sequence of commands, modelling a phase of the integrator: essentially a
`std::vector<CommandStruct>`. -/
structure CommandSequence where
  m_seq : List CommandStruct
  deriving DecidableEq, Repr

/-- The constructor `CommandSequence()`. -/
def CommandSequence.new : CommandSequence :=
  { m_seq := [] }

def CommandSequence.size (s : CommandSequence) : Nat :=
  s.m_seq.length

def CommandSequence.empty (s : CommandSequence) : Bool :=
  s.m_seq.isEmpty

/-- The checked access `m_seq.at(pos)`, which throws `std::out_of_range` when
`pos >= size()`. -/
def CommandSequence.at (s : CommandSequence) (pos : Nat) : Except Error CommandStruct :=
  match s.m_seq[pos]? with
  | some c => .ok c
  | none => .error Error.out_of_range

/-- Appends `cmd` and returns a reference to `back()`: the position of the new
element, with the new sequence. -/
def CommandSequence.push_back (s : CommandSequence) (cmd : CommandStruct) : Nat × CommandSequence :=
  (s.m_seq.length, { m_seq := s.m_seq ++ [cmd] })

/-! ## `Integrator.h`: `Integrator::Phase` -/

/-- A `should_run_t`: pointer to a function
`bool (*)(Phase const*, GlobalData const*)`. -/
inductive should_run_t
  | default_should_run
  | default_is_done
  | user (fn : Nat)
  deriving DecidableEq, Repr

/-- Currently this is the same as `should_run_t`. -/
abbrev is_done_t := should_run_t

/-- A `reset_t`: pointer to a function `void (*)(Phase*, Integrator const*)`. -/
inductive reset_t
  | default_reset
  | user (fn : Nat)
  deriving DecidableEq, Repr

/-- The class `Integrator::Phase`.  The back pointer `m_owner` is not a field:
the owner is handed to `reset`, the only method that reads it. -/
structure Phase where
  m_name : String
  m_command : CommandSequence
  m_cmd_idx : Nat
  m_should_run : should_run_t
  m_is_done : is_done_t
  m_reset_func : reset_t
  deriving DecidableEq, Repr

/-- The class `Integrator`, over the type `G` of the `GlobalData` its `gdata`
points to (declared, not defined, in the sources). -/
structure Integrator (G : Type) where
  gdata : G
  m_name : String
  m_phase : List Phase
  m_phase_idx : Nat
  deriving DecidableEq

/-- The functions of the program, other than the static members of `Phase`,
that a hook of a phase may point to. -/
structure UserFunctions (G : Type) where
  predicate : Nat → Phase → G → Bool
  reset : Nat → Phase → Integrator G → Phase

namespace Phase

variable {G : Type}

/-- The method `reserve` changes the capacity of the vector only. -/
def reserve (p : Phase) (_num_cmds : Nat) : Phase :=
  p

def add_command (table : CommandTable) (p : Phase) (cmd : CommandName) : Nat × Phase :=
  let r := p.m_command.push_back (CommandStruct.new table cmd)
  (r.1, { p with m_command := r.2 })

/-- The method returns `m_command.at(idx)` as a mutable reference; `edit` is
what the caller does to the descriptor through that reference. -/
def edit_command (p : Phase) (idx : Nat) (edit : CommandStruct → CommandStruct) :
    Except Error CommandStruct × Phase :=
  match p.m_command.at idx with
  | .ok c => (.ok (edit c), { p with m_command := { m_seq := p.m_command.m_seq.set idx (edit c) } })
  | .error e => (.error e, p)

def reset_index (p : Phase) : Phase :=
  { p with m_cmd_idx := 0 }

def should_run_if (p : Phase) (new_should_run_cond : should_run_t) : Phase :=
  { p with m_should_run := new_should_run_cond }

def is_done_if (p : Phase) (new_is_done_cond : is_done_t) : Phase :=
  { p with m_is_done := new_is_done_cond }

def set_reset_function (p : Phase) (reset_func : reset_t) : Phase :=
  { p with m_reset_func := reset_func }

def empty (p : Phase) : Bool :=
  p.m_command.empty

def not_empty (p : Phase) : Bool :=
  !p.empty

def finished_commands (p : Phase) : Bool :=
  p.m_cmd_idx == p.m_command.size

def default_should_run (p : Phase) (_gdata : G) : Bool :=
  p.not_empty

def default_is_done (p : Phase) (_gdata : G) : Bool :=
  p.finished_commands

def default_reset (p : Phase) (_owner : Integrator G) : Phase :=
  p.reset_index

/-- The call `f(p, gdata)` through a pointer `f` of type `should_run_t`. -/
def call_predicate (fns : UserFunctions G) (f : should_run_t) (p : Phase) (gdata : G) : Bool :=
  match f with
  | .default_should_run => default_should_run p gdata
  | .default_is_done => default_is_done p gdata
  | .user fn => fns.predicate fn p gdata

/-- The call `f(p, owner)` through a pointer `f` of type `reset_t`. -/
def call_reset (fns : UserFunctions G) (f : reset_t) (p : Phase) (owner : Integrator G) : Phase :=
  match f with
  | .default_reset => default_reset p owner
  | .user fn => fns.reset fn p owner

def reset (fns : UserFunctions G) (owner : Integrator G) (p : Phase) : Phase :=
  call_reset fns p.m_reset_func p owner

def should_run (fns : UserFunctions G) (p : Phase) (gdata : G) : Bool :=
  call_predicate fns p.m_should_run p gdata

def done (fns : UserFunctions G) (p : Phase) (gdata : G) : Bool :=
  call_predicate fns p.m_is_done p gdata

/-- The constructor `Phase(owner, name)`. -/
def new (name : String) : Phase :=
  { m_name := name
    m_command := CommandSequence.new
    m_cmd_idx := 0
    m_should_run := should_run_t.default_should_run
    m_is_done := should_run_t.default_is_done
    m_reset_func := reset_t.default_reset }

def name (p : Phase) : String :=
  p.m_name

def current_command (p : Phase) : Except Error CommandStruct :=
  p.m_command.at p.m_cmd_idx

/-- The statement `current_command()` throws before `++m_cmd_idx` is reached,
so a failing call leaves the phase as it was. -/
def next_command (p : Phase) : Except Error CommandStruct × Phase :=
  match p.current_command with
  | .ok cmd => (.ok cmd, { p with m_cmd_idx := p.m_cmd_idx + 1 })
  | .error e => (.error e, p)

end Phase

/-! ## `Integrator.h`: `Integrator` -/

namespace Integrator

variable {G : Type}

/-- The constructor `Integrator(_gdata, name)`. -/
def new (_gdata : G) (name : String) : Integrator G :=
  { gdata := _gdata
    m_name := name
    m_phase := []
    m_phase_idx := 0 }

def name (I : Integrator G) : String :=
  I.m_name

/-- The checked access `m_phase.at(m_phase_idx)`. -/
def current_phase (I : Integrator G) : Except Error Phase :=
  match I.m_phase[I.m_phase_idx]? with
  | some p => .ok p
  | none => .error Error.out_of_range

/-- Modelled from the spec: `Integrator::enter_phase`, which `Integrator.h`
declares and whose definition is not among the sources.  By the spec, entering
a phase by index makes it the current phase and calls its `reset()`, and an
out-of-range phase index is a precondition violation.  The result is the
pointer to the phase entered.  The spec does not say what a failed call leaves
behind: here it changes nothing. -/
def enter_phase (fns : UserFunctions G) (I : Integrator G) (phase_idx : Nat) :
    Except Error Nat × Integrator G :=
  match I.m_phase[phase_idx]? with
  | none => (.error Error.out_of_range, I)
  | some p =>
    let I1 : Integrator G := { I with m_phase_idx := phase_idx }
    (.ok phase_idx, { I1 with m_phase := I1.m_phase.set phase_idx (p.reset fns I1) })

/-- Move on to the next phase: the base implementation of the virtual method. -/
def next_phase (fns : UserFunctions G) (I : Integrator G) : Except Error Nat × Integrator G :=
  enter_phase fns I (I.m_phase_idx + 1)

/-- Start the integrator. -/
def start (fns : UserFunctions G) (I : Integrator G) : Except Error Unit × Integrator G :=
  match enter_phase fns I 0 with
  | (.ok _, I1) => (.ok (), I1)
  | (.error e, I1) => (.error e, I1)

def we_are_done (I : Integrator G) : Integrator G :=
  I

/-- The call `phase->next_command()` on the phase `phase` points to: the phase
is updated in place.  A pointer to no phase of `m_phase`, which the base class
never produces, is reported as an error. -/
def phase_next_command (I : Integrator G) (phase : Nat) : Except Error CommandStruct × Integrator G :=
  match I.m_phase[phase]? with
  | none => (.error Error.out_of_range, I)
  | some p => (p.next_command.1, { I with m_phase := I.m_phase.set phase p.next_command.2 })

/-- Fetch the next command.  The virtual method `next_phase()` is the argument
`next_phase_v`: `Integrator.next_phase fns` for the base class, the override
for a derived class. -/
def next_command (fns : UserFunctions G)
    (next_phase_v : Integrator G → Except Error Nat × Integrator G) (I : Integrator G) :
    Except Error CommandStruct × Integrator G :=
  match I.current_phase with
  | .error e => (.error e, I)
  | .ok p =>
    if p.done fns I.gdata then
      match next_phase_v I with
      | (.error e, I1) => (.error e, I1)
      | (.ok phase, I1) => phase_next_command I1 phase
    else
      phase_next_command I I.m_phase_idx

/-- The results of `n` successive calls of `next_command()` on the base class,
with the integrator they leave. -/
def run_commands (fns : UserFunctions G) :
    Nat → Integrator G → List (Except Error CommandStruct) × Integrator G
  | 0, I => ([], I)
  | n + 1, I =>
    let r := next_command fns (next_phase fns) I
    let rest := run_commands fns n r.2
    (r.1 :: rest.1, rest.2)

end Integrator

/-- The results of `n` successive calls of `next_command()` on a phase, with
the phase they leave. -/
def Phase.drain : Nat → Phase → List (Except Error CommandStruct) × Phase
  | 0, p => ([], p)
  | n + 1, p =>
    let r := p.next_command
    let rest := Phase.drain n r.2
    (r.1 :: rest.1, rest.2)

/-- The phase invariant of the data model: the cursor is in `[0, length]`. -/
def Phase.cursor_in_range (p : Phase) : Prop :=
  p.m_cmd_idx ≤ p.m_command.size

instance (p : Phase) : Decidable p.cursor_in_range :=
  inferInstanceAs (Decidable (p.m_cmd_idx ≤ p.m_command.size))

/-- The integrator invariant of the data model: the current-phase index is in
`[0, phase count)`. -/
def Integrator.phase_idx_in_range {G : Type} (I : Integrator G) : Prop :=
  I.m_phase_idx < I.m_phase.length

instance {G : Type} (I : Integrator G) : Decidable I.phase_idx_in_range :=
  inferInstanceAs (Decidable (I.m_phase_idx < I.m_phase.length))

/-! ## `integrators/PredictorCorrectorIntegrator.h` -/

/-- Phases implemented in the predictor/corrector integrator, used as index in
the `m_phase` list. -/
inductive PhaseCode
  | POST_UPLOAD
  | NEIBS_LIST
  | INITIALIZATION
  | INIT_EFFPRES_PREP
  | INIT_EFFPRES
  | BEGIN_TIME_STEP
  | PREDICTOR
  | PREDICTOR_END
  | POSTPRED_EFFPRES_PREP
  | POSTPRED_EFFPRES
  | CORRECTOR
  | CORRECTOR_END
  | POSTCORR_EFFPRES_PREP
  | POSTCORR_EFFPRES
  | FILTER_INTRO
  | FILTER_CALL
  | FILTER_OUTRO
  | NUM_PHASES
  deriving DecidableEq, Repr

/-- The value of an enumerator of `PhaseCode`: its position in the enum. -/
def PhaseCode.code : PhaseCode → Nat
  | .POST_UPLOAD => 0
  | .NEIBS_LIST => 1
  | .INITIALIZATION => 2
  | .INIT_EFFPRES_PREP => 3
  | .INIT_EFFPRES => 4
  | .BEGIN_TIME_STEP => 5
  | .PREDICTOR => 6
  | .PREDICTOR_END => 7
  | .POSTPRED_EFFPRES_PREP => 8
  | .POSTPRED_EFFPRES => 9
  | .CORRECTOR => 10
  | .CORRECTOR_END => 11
  | .POSTCORR_EFFPRES_PREP => 12
  | .POSTCORR_EFFPRES => 13
  | .FILTER_INTRO => 14
  | .FILTER_CALL => 15
  | .FILTER_OUTRO => 16
  | .NUM_PHASES => 17

namespace PredictorCorrector

variable {G : Type}

/-- The override `start()`, which enters `POST_UPLOAD`.  It acts on the
`Integrator` part of the object only. -/
def start (fns : UserFunctions G) (I : Integrator G) : Except Error Unit × Integrator G :=
  match Integrator.enter_phase fns I PhaseCode.POST_UPLOAD.code with
  | (.ok _, I1) => (.ok (), I1)
  | (.error e, I1) => (.error e, I1)

/-- Modelled from the spec: `PredictorCorrector::phase_after`, declared in
`PredictorCorrectorIntegrator.h` and defined outside the sources.  The spec:
the transition function maps the current phase code and the relevant scheme
state to the next phase code; after the predictor it enters the
effective-pressure solver sub-loop if enabled, otherwise it goes straight to
the corrector.  The other transitions, which the spec describes in outline
only, are the parameter `other`. -/
def phase_after (effpres_enabled : Bool) (other : PhaseCode → PhaseCode) (cur : PhaseCode) :
    PhaseCode :=
  match cur with
  | .PREDICTOR_END =>
    if effpres_enabled then PhaseCode.POSTPRED_EFFPRES_PREP else PhaseCode.CORRECTOR
  | c => other c

end PredictorCorrector

/-! ## `simflags.h` -/

/-- No options. -/
def ENABLE_NONE : flag_t := 0

/-- Adaptive timestepping. -/
def ENABLE_DTADAPT : flag_t := 1

/-- XSPH. -/
def ENABLE_XSPH : flag_t := ENABLE_DTADAPT <<< 1

/-- Planes. -/
def ENABLE_PLANES : flag_t := ENABLE_XSPH <<< 1

/-- DEM. -/
def ENABLE_DEM : flag_t := ENABLE_PLANES <<< 1

/-- Moving boundaries and rigid bodies. -/
def ENABLE_MOVING_BODIES : flag_t := ENABLE_DEM <<< 1

/-- Open boundaries. -/
def ENABLE_INLET_OUTLET : flag_t := ENABLE_MOVING_BODIES <<< 1

/-- Water depth computation. -/
def ENABLE_WATER_DEPTH : flag_t := ENABLE_INLET_OUTLET <<< 1

/-- Summation density. -/
def ENABLE_DENSITY_SUM : flag_t := ENABLE_WATER_DEPTH <<< 1

/-- Compute gamma through Gauss quadrature formula. -/
def ENABLE_GAMMA_QUADRATURE : flag_t := ENABLE_DENSITY_SUM <<< 1

/-- Repacking. -/
def ENABLE_REPACKING : flag_t := ENABLE_GAMMA_QUADRATURE <<< 1

/-- Compute internal energy. -/
def ENABLE_INTERNAL_ENERGY : flag_t := ENABLE_REPACKING <<< 1

/-- Enable multi-fluid support. -/
def ENABLE_MULTIFLUID : flag_t := ENABLE_INTERNAL_ENERGY <<< 1

/-- Last simulation flag. -/
def LAST_SIMFLAG : flag_t := ENABLE_MULTIFLUID

/-- All flags: `LAST_SIMFLAG | (LAST_SIMFLAG-1)`. -/
def ENABLE_ALL_SIMFLAGS : flag_t := LAST_SIMFLAG ||| (LAST_SIMFLAG - 1)

/-- The macro `QUERY_ALL_FLAGS(field, flags)`: `((field) & (flags)) == (flags)`. -/
def QUERY_ALL_FLAGS (field flags : flag_t) : Bool :=
  (field &&& flags) == flags

/-- The macro `QUERY_ANY_FLAGS(field, flags)`: `(field) & (flags)`, a flag word
that is read as a truth value. -/
def QUERY_ANY_FLAGS (field flags : flag_t) : flag_t :=
  field &&& flags

/-- The macro `DISABLE_FLAGS(field, flags)`: `(field) & ~(flags)`, on flag words
of `flag_bits` bits. -/
def DISABLE_FLAGS (flag_bits : Nat) (field flags : flag_t) : flag_t :=
  field &&& flag_not flag_bits flags

/-- The flags enabled by default. -/
def DEFAULT_FLAGS : flag_t := ENABLE_DTADAPT

/-- The twelve simulation flags, in the order of their definition. -/
def simulation_flags : List flag_t :=
  [ENABLE_DTADAPT, ENABLE_XSPH, ENABLE_PLANES, ENABLE_DEM, ENABLE_MOVING_BODIES,
   ENABLE_INLET_OUTLET, ENABLE_WATER_DEPTH, ENABLE_DENSITY_SUM, ENABLE_GAMMA_QUADRATURE,
   ENABLE_REPACKING, ENABLE_INTERNAL_ENERGY, ENABLE_MULTIFLUID]

/-- The union of a list of flags. -/
def flag_union (flags : List flag_t) : flag_t :=
  flags.foldr (fun x acc => x ||| acc) 0

/-! ## `Options.cc` and `buffer_traits.cc` -/

/-- The exception `std::invalid_argument`, with its message. -/
structure invalid_argument where
  what : String
  deriving DecidableEq, Repr

/-- The test `isspace` of the C locale. -/
def isspace (c : Char) : Bool :=
  c == ' ' || c == '\t' || c == '\n' || c == '\x0b' || c == '\x0c' || c == '\r'

/-- The value of a sequence of decimal digits. -/
def digits_value (ds : List Char) : Nat :=
  ds.foldl (fun acc c => acc * 10 + (c.toNat - '0'.toNat)) 0

/-- The conversion of an `unsigned int` of 32 bits to the `int` that has the
same bits. -/
def unsigned_to_int (u : Nat) : Int :=
  if u < 2 ^ 31 then (u : Int) else (u : Int) - 2 ^ 32

/-- The optional sign of a number read by `sscanf`: whether it is a minus
sign, and the characters after it. -/
def scan_sign (s : List Char) : Bool × List Char :=
  match s with
  | '-' :: r => (true, r)
  | '+' :: r => (false, r)
  | r => (false, r)

/-- The call `sscanf(s, "%u", &next_dev)` with `int next_dev`: the result is
`some` of the value stored when the call returns a positive count.  The
directive skips white space, accepts an optional sign and then needs at least
one decimal digit; what follows the digits is left unread.  The value is stored
as an `unsigned int` of 32 bits (one that does not fit is reduced modulo
`2 ^ 32` here) and read back as an `int`. -/
def sscanf_u (s : List Char) : Option Int :=
  let signed := scan_sign (s.dropWhile isspace)
  let ds := signed.2.takeWhile Char.isDigit
  if ds.isEmpty then none
  else
    let v := digits_value ds % 2 ^ 32
    some (unsigned_to_int (if signed.1 then (2 ^ 32 - v) % 2 ^ 32 else v))

/-- The call `getline(tokenizer, dev_string, delim)` on a stream with the
characters `stream` left to read: `none` when the call fails, which it does
when no character is left; otherwise the characters before the first `delim`
and the characters after it. -/
def getline (stream : List Char) (delim : Char) : Option (List Char × List Char) :=
  match stream with
  | [] => none
  | _ :: _ => some (stream.takeWhile (fun c => c != delim),
      (stream.dropWhile (fun c => c != delim)).drop 1)

/-- The loop of `parse_devices_string`: `fuel` bounds the number of calls of
`getline`. -/
def parse_devices_loop : Nat → List Char → List Int → Except invalid_argument (List Int)
  | 0, _, ret => .ok ret
  | fuel + 1, tokenizer, ret =>
    match getline tokenizer ',' with
    | none => .ok ret
    | some (dev_string, rest) =>
      match sscanf_u dev_string with
      | some next_dev => parse_devices_loop fuel rest (ret ++ [next_dev])
      | none => .error ⟨"token " ++ String.mk dev_string ++ " is not a number"⟩

/-- The function `parse_devices_string`, on the characters of the C string
`argv`.  Every call of `getline` but the last reads at least one character, so
the fuel is enough. -/
def parse_devices_string (argv : List Char) : Except invalid_argument (List Int) :=
  parse_devices_loop (argv.length + 1) argv []

/-- The members of the class `Options` (declared in `Options.h`, which is not
among the sources) that `Options.cc` reads: the option map `m_options`, a
`std::map` from strings to strings, as the list of its entries, and the
string `dem`. -/
structure Options where
  m_options : List (String × String)
  dem : String
  deriving DecidableEq, Repr

/-- The specialization `Options::get<string>`. -/
def Options.get_string (o : Options) (key : String) (_default : String) : String :=
  match o.m_options.lookup key with
  | some found => found
  | none => if key == "dem" && !o.dem.isEmpty then o.dem else _default

/-- Values accepted to mean true. -/
def true_values : List String := ["yes", "true", "1"]

def is_true_value (value : String) : Bool :=
  true_values.contains value

/-- Values accepted to mean false. -/
def false_values : List String := ["no", "false", "0"]

def is_false_value (value : String) : Bool :=
  false_values.contains value

/-- The specialization `Options::get<bool>`. -/
def Options.get_bool (o : Options) (key : String) (_default : Bool) :
    Except invalid_argument Bool :=
  match o.m_options.lookup key with
  | some value =>
    if is_true_value value then .ok true
    else if is_false_value value then .ok false
    else .error ⟨"invalid boolean value \x27" ++ value ++ "\x27 for key \x27" ++ key ++ "\x27"⟩
  | none => .ok _default

/-- The function `getBufferName`.  Its switch has one case per line
`SET_BUFFER_TRAITS(code, _type, _nbufs, _name)` of `define_buffers.h`, which is
not among the sources: the lines, as pairs of `code` and `_name`, are the
parameter `buffers`. -/
def getBufferName (buffers : List (flag_t × String)) (key : flag_t) :
    Except invalid_argument String :=
  match buffers.lookup key with
  | some name => .ok name
  | none => .error ⟨"unknown Buffer key " ++ toString key⟩

/-- The decimal rendering of a number: the characters of `toString n`. -/
def decimal (n : Nat) : List Char :=
  Nat.toDigits 10 n

/-- The strings of a list joined by commas. -/
def join_commas : List (List Char) → List Char
  | [] => []
  | [t] => t
  | t :: u :: rest => t ++ ',' :: join_commas (u :: rest)

/-! ## `command_type.h`: the traits of a command -/

/-- The trait `CommandTraits<cmd>::only_internal`: the specialization generated
by the line of `cmd` in `define_commands.h`, and the primary template, where
`only_internal = true`, for a code without a line. -/
def CommandTraits.only_internal (table : CommandTable) (cmd : CommandName) : Bool :=
  match table[cmd]? with
  | some d => d.internal
  | none => true

/-- The trait `CommandTraits<cmd>::buffer_usage`, `NO_BUFFER_USAGE` in the
primary template. -/
def CommandTraits.buffer_usage (table : CommandTable) (cmd : CommandName) :
    CommandBufferUsage :=
  match table[cmd]? with
  | some d => d.usage
  | none => CommandBufferUsage.NO_BUFFER_USAGE

/-! ## `simflags.h`: the documented defaults -/

/-- The flags whose documentation in `simflags.h` carries `@default{enable}`.
By the note at the head of the file, these tags are read by the SALOME user
interface; `DEFAULT_FLAGS` is defined and documented on its own. -/
def documented_default_enable : List flag_t :=
  [ENABLE_DTADAPT, ENABLE_DENSITY_SUM]

/-- The flags whose documentation in `simflags.h` carries `@default{disable}`. -/
def documented_default_disable : List flag_t :=
  [ENABLE_XSPH, ENABLE_WATER_DEPTH, ENABLE_GAMMA_QUADRATURE, ENABLE_REPACKING,
   ENABLE_INTERNAL_ENERGY]

/-! ## `kahan.h`, in exact arithmetic

The functions of `kahan.h` compute on `float`; they are embedded over an
arbitrary commutative group `R` (the rationals, the reals), in which the
operations `+` and `-` are exact. -/

section Kahan

variable {R : Type} [AddCommGroup R]

/-- One iteration of the Kahan summation, on the pair `(sum, corr)`, with the
next term `qi`:
`corr_next = qi - corr; new_sum = sum + corr_next;`
`corr = (new_sum - sum) - corr_next; sum = new_sum`. -/
def kahan_step (qi : R) (st : R × R) : R × R :=
  let corr_next := qi - st.2
  let new_sum := st.1 + corr_next
  (new_sum, (new_sum - st.1) - corr_next)

/-- The pair `(sum, corr)` of `kahan_sum(q, n)` after the iterations
`i = 1, ..., k` of its loop. -/
def kahan_sum_state (q : Nat → R) (k : Nat) : R × R :=
  (List.range' 1 k).foldl (fun st i => kahan_step (q i) st) (q 0, 0)

/-- The function `kahan_sum(const float *q, uint n)`: the loop runs for
`i = 1, ..., n - 1`. -/
def kahan_sum (q : Nat → R) (n : Nat) : R :=
  (kahan_sum_state q (n - 1)).1

/-- Kahan sum of three values. -/
def kahan_sum3 (f1 f2 f3 : R) : R :=
  (kahan_step f3 (kahan_step f2 (f1, 0))).1

/-- Kahan sum of four values. -/
def kahan_sum4 (f1 f2 f3 f4 : R) : R :=
  (kahan_step f4 (kahan_step f3 (kahan_step f2 (f1, 0)))).1

/-- Kahan sum of five values. -/
def kahan_sum5 (f1 f2 f3 f4 f5 : R) : R :=
  (kahan_step f5 (kahan_step f4 (kahan_step f3 (kahan_step f2 (f1, 0))))).1

/-- The array with the elements of `l`, indexed from 0. -/
def array_of (l : List R) (i : Nat) : R :=
  l.getD i 0

/-- The template `kahan_add(val, add, kahan)`, which updates `val` and `kahan`:
the result is the pair of their new values.  The argument `op_not` is the
`operator !` of the type `T`. -/
def kahan_add {T : Type} [Add T] [Sub T] (op_not : T → Bool) (val add kahan : T) : T × T :=
  if op_not add then (val, kahan)
  else
    let sub := add - kahan
    let new_val := val + sub
    let kahan1 := new_val - val
    (new_val, kahan1 - sub)

/-- The built-in `!` of a number: true when it is zero. -/
def scalar_not [DecidableEq R] (v : R) : Bool :=
  decide (v = 0)

/-- A `float3`, with its components `x`, `y`, `z` in that order; sums and
differences are taken component by component. -/
abbrev float3 (R : Type) := R × R × R

/-- A `float4`, with its components `x`, `y`, `z`, `w` in that order. -/
abbrev float4 (R : Type) := R × R × R × R

/-- The `operator !(const float3&)`: `!(v.x || v.y || v.z)`. -/
def float3_not [DecidableEq R] (v : float3 R) : Bool :=
  !(decide (v.1 ≠ 0) || decide (v.2.1 ≠ 0) || decide (v.2.2 ≠ 0))

/-- The `operator !(const float4&)`: `!(v.x || v.y || v.z || v.w)`. -/
def float4_not [DecidableEq R] (v : float4 R) : Bool :=
  !(decide (v.1 ≠ 0) || decide (v.2.1 ≠ 0) || decide (v.2.2.1 ≠ 0) || decide (v.2.2.2 ≠ 0))

end Kahan

/-! ## `geometries/Plane.cc` -/

/-- The operations on `double` that `Plane::getBoundingBox` uses: the test
`x == 0`, the division and the constant `INFINITY`.  Floating-point arithmetic
is not modelled: the operations are parameters. -/
structure DoubleOps (D : Type) where
  is_zero : D → Bool
  div : D → D → D
  INFINITY : D

/-- A `Point` with the coordinates given to its constructor `Point(x, y, z)`. -/
structure Point (D : Type) where
  x : D
  y : D
  z : D
  deriving DecidableEq, Repr

/-- The coefficients of a `Plane`, `a x + b y + c z + d = 0`. -/
structure Plane (D : Type) where
  m_a : D
  m_b : D
  m_c : D
  m_d : D
  deriving DecidableEq, Repr

/-- The method `Plane::getBoundingBox(output_min, output_max)`: the result is
the pair of the values of `output_min` and `output_max` when it returns.  The
`else` of the last `if` governs the assignment to `output_min` only: the last
statement, the assignment of `Point(INFINITY, INFINITY, INFINITY)` to
`output_max`, is executed for every plane. -/
def Plane.getBoundingBox {D : Type} (ops : DoubleOps D) (p : Plane D)
    (output_min output_max : Point D) : Point D × Point D :=
  let st0 : Point D × Point D := (output_min, output_max)
  let st1 : Point D × Point D :=
    if ops.is_zero p.m_a && ops.is_zero p.m_b then
      (Point.mk ops.INFINITY ops.INFINITY (ops.div p.m_d p.m_c),
       Point.mk ops.INFINITY ops.INFINITY (ops.div p.m_d p.m_c))
    else if ops.is_zero p.m_a && ops.is_zero p.m_c then
      (Point.mk ops.INFINITY (ops.div p.m_d p.m_b) ops.INFINITY,
       Point.mk ops.INFINITY (ops.div p.m_d p.m_b) ops.INFINITY)
    else if ops.is_zero p.m_b && ops.is_zero p.m_c then
      (Point.mk (ops.div p.m_d p.m_a) ops.INFINITY ops.INFINITY,
       Point.mk (ops.div p.m_d p.m_a) ops.INFINITY ops.INFINITY)
    else
      (Point.mk ops.INFINITY ops.INFINITY ops.INFINITY, st0.2)
  (st1.1, Point.mk ops.INFINITY ops.INFINITY ops.INFINITY)

/-- Exact arithmetic on the rationals with one more value, `none`, for
`INFINITY`; a division by zero gives `INFINITY`. -/
def exact_ops : DoubleOps (Option ℚ) :=
  { is_zero := fun x => x == some 0
    div := fun x y =>
      match x, y with
      | some a, some b => if b = 0 then none else some (a / b)
      | _, _ => none
    INFINITY := none }

/-- A token made of decimal digits only, at least one. -/
def digit_token (t : List Char) : Prop :=
  t ≠ [] ∧ ∀ c ∈ t, c.isDigit = true

/-! ## Example data -/

/-- A command table with three commands: `0` runs on all particles, `1` and
`2` on internal particles only. -/
def example_table : CommandTable :=
  [⟨false, CommandBufferUsage.NO_BUFFER_USAGE⟩,
   ⟨true, CommandBufferUsage.STATIC_BUFFER_USAGE⟩,
   ⟨true, CommandBufferUsage.DYNAMIC_BUFFER_USAGE⟩]

/-- A program whose global data is a "converged" flag.  Predicate `0` is never
true, every other predicate reads the flag; the reset functions leave the
phase as it is. -/
def example_functions : UserFunctions Bool :=
  { predicate := fun fn _ gdata => match fn with
      | 0 => false
      | _ => gdata
    reset := fun _ p _ => p }

/-- The phase obtained from a new phase by one `add_command` per code. -/
def example_phase (name : String) (cmds : List CommandName) : Phase :=
  cmds.foldl (fun p cmd => (p.add_command example_table cmd).2) (Phase.new name)

/-- A newly constructed integrator to which the phases `phases` were added. -/
def example_integrator (gdata : Bool) (phases : List Phase) : Integrator Bool :=
  { Integrator.new gdata "example" with m_phase := phases }

/-- The phase `A` with the commands `0, 1`, done as soon as the "converged"
flag is set, after one call of `next_command`: its second command is still
un-executed. -/
def example_phase_A1 : Phase :=
  ((example_phase "A" [0, 1]).is_done_if (should_run_t.user 1)).next_command.2

/-- The flag is set while `A` has a command left; the next phase `B` has one
command. -/
def example_converged : Integrator Bool :=
  example_integrator true [example_phase_A1, example_phase "B" [2]]

/-- As `example_converged`, with an empty next phase. -/
def example_next_empty : Integrator Bool :=
  example_integrator true [example_phase_A1, Phase.new "B"]

/-- As `example_converged`, without a next phase. -/
def example_last_phase : Integrator Bool :=
  example_integrator true [example_phase_A1]

/-- As `example_converged`, with a next phase whose reset function leaves the
cursor where the previous visit left it (at 1, of 2 commands). -/
def example_next_keeps_cursor : Integrator Bool :=
  example_integrator true [example_phase_A1,
    ((example_phase "B" [1, 2]).set_reset_function (reset_t.user 0)).next_command.2]

/-- A single phase with one command whose `is_done` predicate never holds,
after the phase has returned its command: the cursor is 1, of 1 command. -/
def example_exhausted : Integrator Bool :=
  example_integrator false
    [((example_phase "P" [0]).is_done_if (should_run_t.user 0)).next_command.2]

/-- The two-phase scenario: `A` and `B` with one command each. -/
def example_two_phases : Integrator Bool :=
  example_integrator false [example_phase "A" [0], example_phase "B" [1]]

/-- The two-phase scenario in which `should_run` of `B` never holds. -/
def example_disabled : Integrator Bool :=
  example_integrator false
    [example_phase "A" [0], (example_phase "B" [1]).should_run_if (should_run_t.user 0)]

/-- A state table with one state, `step n`, which holds the buffers of keys 1
and 2. -/
def example_particle_system : ParticleSystem :=
  { states := [("step n", 3)] }

/-- A declaration of the buffers of keys 1 and 4 in the state `step n`. -/
def example_declaration : StateBuffers :=
  { state := "step n", buffers := 5 }

/-- The integrator `example_converged` after one call of `next_command()`: it
is in phase 1, and the cursor of its phase 0 is still 1. -/
def example_started : Integrator Bool :=
  (Integrator.next_command example_functions (Integrator.next_phase example_functions)
    example_converged).2

/-- The descriptor of the command 0 with the flags `10` set. -/
def example_command : CommandStruct :=
  (CommandStruct.new example_table 0).set_flags 10

/-- Options with four entries, and a `dem` field. -/
def example_options : Options :=
  { m_options := [("verbose", "yes"), ("striping", "0"), ("debug", "True"), ("dem", "a.dem")]
    dem := "b.dem" }

/-- A table of three buffers, with the keys of the bits 0, 1 and 2. -/
def example_buffers : List (flag_t × String) :=
  [(1, "Position"), (2, "Velocity"), (4, "Info")]

/-! ## Properties of `Phase` -/

theorem Phase.next_command_of_lt (p : Phase) (h : p.m_cmd_idx < p.m_command.size) :
    p.next_command = (.ok (p.m_command.m_seq.get ⟨p.m_cmd_idx, h⟩),
      { p with m_cmd_idx := p.m_cmd_idx + 1 }) := by
  have hlt : p.m_cmd_idx < p.m_command.m_seq.length := h
  simp [Phase.next_command, Phase.current_command, CommandSequence.at,
    List.getElem?_eq_getElem hlt]

theorem Phase.next_command_of_ge (p : Phase) (h : p.m_command.size ≤ p.m_cmd_idx) :
    p.next_command = (.error Error.out_of_range, p) := by
  have hge : p.m_command.m_seq.length ≤ p.m_cmd_idx := h
  simp [Phase.next_command, Phase.current_command, CommandSequence.at,
    List.getElem?_eq_none hge]

/-- C1: for a phase whose cursor `i` is smaller than the number of commands,
`next_command` returns the command stored at index `i`, sets the cursor to
`i + 1` and leaves the command list (and the name and the three hooks)
unchanged. -/
theorem Phase.next_command_returns_cursor_command (p : Phase)
    (h : p.m_cmd_idx < p.m_command.size) :
    p.next_command.1 = .ok (p.m_command.m_seq.get ⟨p.m_cmd_idx, h⟩) ∧
    p.next_command.2.m_cmd_idx = p.m_cmd_idx + 1 ∧
    p.next_command.2.m_command = p.m_command ∧
    p.next_command.2.m_name = p.m_name ∧
    p.next_command.2.m_should_run = p.m_should_run ∧
    p.next_command.2.m_is_done = p.m_is_done ∧
    p.next_command.2.m_reset_func = p.m_reset_func := by
  rw [Phase.next_command_of_lt p h]
  exact ⟨rfl, rfl, rfl, rfl, rfl, rfl, rfl⟩


theorem Phase.drain_eq (k : Nat) : ∀ (p : Phase), p.m_cmd_idx + k ≤ p.m_command.size →
    Phase.drain k p = (((p.m_command.m_seq.drop p.m_cmd_idx).take k).map Except.ok,
      { p with m_cmd_idx := p.m_cmd_idx + k }) := by
  induction k with
  | zero => intro p _; simp [Phase.drain]
  | succ k ih =>
    intro p h
    have hlt : p.m_cmd_idx < p.m_command.size := by omega
    have hlt2 : p.m_cmd_idx < p.m_command.m_seq.length := hlt
    have hstep := Phase.next_command_of_lt p hlt
    have hih := ih { p with m_cmd_idx := p.m_cmd_idx + 1 } (by
      show p.m_cmd_idx + 1 + k ≤ p.m_command.size
      omega)
    simp only [Phase.drain, hstep, hih, List.get_eq_getElem]
    rw [List.drop_eq_getElem_cons hlt2, List.take_succ_cons, List.map_cons]
    simp only [Nat.add_assoc, Nat.add_comm 1 k]

theorem Phase.not_empty_iff (p : Phase) : p.not_empty = true ↔ 0 < p.m_command.size := by
  cases h : p.m_command.m_seq <;>
    simp [Phase.not_empty, Phase.empty, CommandSequence.empty, CommandSequence.size, h]

theorem Phase.default_done_iff {G : Type} (fns : UserFunctions G) (g : G) (p : Phase)
    (hd : p.m_is_done = should_run_t.default_is_done) :
    p.done fns g = true ↔ p.m_cmd_idx = p.m_command.size := by
  simp [Phase.done, Phase.call_predicate, hd, Phase.default_is_done, Phase.finished_commands]

theorem Phase.reset_default {G : Type} (fns : UserFunctions G) (owner : Integrator G) (p : Phase)
    (hr : p.m_reset_func = reset_t.default_reset) :
    p.reset fns owner = { p with m_cmd_idx := 0 } := by
  simp [Phase.reset, Phase.call_reset, hr, Phase.default_reset, Phase.reset_index]

/-! ## Properties of `Integrator` -/

namespace Integrator

variable {G : Type}

theorem next_command_not_done (fns : UserFunctions G)
    (nv : Integrator G → Except Error Nat × Integrator G) (I : Integrator G) (p : Phase)
    (hp : I.m_phase[I.m_phase_idx]? = some p) (hd : p.done fns I.gdata = false) :
    next_command fns nv I = (p.next_command.1,
      { I with m_phase := I.m_phase.set I.m_phase_idx p.next_command.2 }) := by
  simp [next_command, current_phase, phase_next_command, hp, hd]

theorem next_command_done (fns : UserFunctions G)
    (nv : Integrator G → Except Error Nat × Integrator G) (I : Integrator G) (p : Phase)
    (hp : I.m_phase[I.m_phase_idx]? = some p) (hd : p.done fns I.gdata = true) :
    next_command fns nv I =
      match nv I with
      | (.error e, I1) => (.error e, I1)
      | (.ok phase, I1) => phase_next_command I1 phase := by
  simp [next_command, current_phase, hp, hd]

theorem next_command_advance (fns : UserFunctions G)
    (nv : Integrator G → Except Error Nat × Integrator G) (I : Integrator G) (p : Phase)
    (hp : I.m_phase[I.m_phase_idx]? = some p) (hd : p.done fns I.gdata = false)
    (hlt : p.m_cmd_idx < p.m_command.size) :
    next_command fns nv I = (.ok (p.m_command.m_seq.get ⟨p.m_cmd_idx, hlt⟩),
      { I with m_phase := I.m_phase.set I.m_phase_idx { p with m_cmd_idx := p.m_cmd_idx + 1 } }) := by
  rw [next_command_not_done fns nv I p hp hd, Phase.next_command_of_lt p hlt]

theorem enter_phase_default (fns : UserFunctions G) (I : Integrator G) (i : Nat) (q : Phase)
    (hq : I.m_phase[i]? = some q) (hr : q.m_reset_func = reset_t.default_reset) :
    enter_phase fns I i = (.ok i,
      { I with m_phase_idx := i, m_phase := I.m_phase.set i { q with m_cmd_idx := 0 } }) := by
  simp [enter_phase, hq, Phase.reset, Phase.call_reset, hr, Phase.default_reset, Phase.reset_index]

theorem next_command_transition (fns : UserFunctions G) (I : Integrator G) (p q : Phase)
    (hp : I.m_phase[I.m_phase_idx]? = some p) (hd : p.done fns I.gdata = true)
    (hq : I.m_phase[I.m_phase_idx + 1]? = some q)
    (hr : q.m_reset_func = reset_t.default_reset) (hne : 0 < q.m_command.size) :
    next_command fns (next_phase fns) I = (.ok (q.m_command.m_seq.get ⟨0, hne⟩),
      { I with m_phase_idx := I.m_phase_idx + 1,
               m_phase := I.m_phase.set (I.m_phase_idx + 1) { q with m_cmd_idx := 1 } }) := by
  have hlen : I.m_phase_idx + 1 < I.m_phase.length := by
    rcases Nat.lt_or_ge (I.m_phase_idx + 1) I.m_phase.length with h | h
    · exact h
    · rw [List.getElem?_eq_none h] at hq; cases hq
  rw [next_command_done fns _ I p hp hd, next_phase, enter_phase_default fns I _ q hq hr]
  have hnc := Phase.next_command_of_lt { q with m_cmd_idx := 0 } hne
  simp [phase_next_command, hlen, hnc]

theorem drop_eq_cons_drop_succ {α : Type} (l : List α) (i : Nat) (a : α) (h : l[i]? = some a) :
    l.drop i = a :: l.drop (i + 1) := by
  obtain ⟨hlt, ha⟩ := List.getElem?_eq_some.mp h
  rw [List.drop_eq_getElem_cons hlt, ha]

theorem run_commands_from (fns : UserFunctions G) : ∀ (n : Nat) (I : Integrator G) (p : Phase),
    (∀ q ∈ I.m_phase, q.m_is_done = should_run_t.default_is_done ∧
      q.m_reset_func = reset_t.default_reset ∧ 0 < q.m_command.size) →
    I.m_phase[I.m_phase_idx]? = some p →
    p.m_cmd_idx ≤ p.m_command.size →
    n = (p.m_command.size - p.m_cmd_idx) +
      ((I.m_phase.drop (I.m_phase_idx + 1)).map (fun q => q.m_command.size)).sum →
    (run_commands fns n I).1 =
      (p.m_command.m_seq.drop p.m_cmd_idx ++
        (I.m_phase.drop (I.m_phase_idx + 1)).flatMap (fun q => q.m_command.m_seq)).map Except.ok := by
  intro n
  induction n with
  | zero =>
    intro I p hall hp hc hn
    have h1 : p.m_command.m_seq.length ≤ p.m_cmd_idx := by
      have : p.m_command.size - p.m_cmd_idx = 0 := by omega
      show p.m_command.size ≤ p.m_cmd_idx
      omega
    have h2 : I.m_phase.drop (I.m_phase_idx + 1) = [] := by
      cases hdrop : I.m_phase.drop (I.m_phase_idx + 1) with
      | nil => rfl
      | cons q rest =>
        have hq : q ∈ I.m_phase := List.mem_of_mem_drop (by rw [hdrop]; exact List.mem_cons_self q rest)
        have := (hall q hq).2.2
        rw [hdrop] at hn
        simp only [List.map_cons, List.sum_cons] at hn
        omega
    simp [run_commands, h2, List.drop_eq_nil_of_le h1]
  | succ n ih =>
    intro I p hall hp hc hn
    have hpmem : p ∈ I.m_phase := List.getElem?_mem hp
    have hidx : I.m_phase_idx < I.m_phase.length := (List.getElem?_eq_some.mp hp).1
    have hdone : p.done fns I.gdata = (p.m_cmd_idx == p.m_command.size) := by
      simp only [Phase.done, Phase.call_predicate, (hall p hpmem).1, Phase.default_is_done,
        Phase.finished_commands]
    rcases Nat.lt_or_ge p.m_cmd_idx p.m_command.size with hlt | hge
    · -- the current phase still has commands
      have hd : p.done fns I.gdata = false := by
        rw [hdone]; exact beq_false_of_ne (Nat.ne_of_lt hlt)
      have hstep := next_command_advance fns (next_phase fns) I p hp hd hlt
      have hlt2 : p.m_cmd_idx < p.m_command.m_seq.length := hlt
      have hih := ih
        { I with m_phase := I.m_phase.set I.m_phase_idx { p with m_cmd_idx := p.m_cmd_idx + 1 } }
        { p with m_cmd_idx := p.m_cmd_idx + 1 }
        (by
          intro q hq
          rcases List.mem_or_eq_of_mem_set hq with h | h
          · exact hall q h
          · subst h; exact hall p hpmem)
        (List.getElem?_set_self hidx)
        (by show p.m_cmd_idx + 1 ≤ p.m_command.size; omega)
        (by
          show n = (p.m_command.size - (p.m_cmd_idx + 1)) +
            ((List.drop (I.m_phase_idx + 1) (I.m_phase.set I.m_phase_idx _)).map _).sum
          rw [List.drop_set_of_lt _ _ (Nat.lt_add_one _)]
          omega)
      simp only [run_commands, hstep, hih, List.get_eq_getElem]
      rw [List.drop_set_of_lt _ _ (Nat.lt_add_one _), List.drop_eq_getElem_cons hlt2]
      simp only [List.cons_append, List.map_cons]
    · -- the current phase is exhausted: the call enters the next phase
      have heq : p.m_cmd_idx = p.m_command.size := by omega
      have hd : p.done fns I.gdata = true := by
        rw [hdone]; exact beq_iff_eq.mpr heq
      cases hdrop : I.m_phase.drop (I.m_phase_idx + 1) with
      | nil =>
        rw [hdrop] at hn
        simp at hn
        omega
      | cons q rest =>
        have hq : I.m_phase[I.m_phase_idx + 1]? = some q := by
          have := List.getElem?_drop I.m_phase (I.m_phase_idx + 1) 0
          rw [hdrop] at this
          simpa using this.symm
        have hrest : I.m_phase.drop (I.m_phase_idx + 1 + 1) = rest := by
          have := drop_eq_cons_drop_succ I.m_phase (I.m_phase_idx + 1) q hq
          rw [hdrop] at this
          exact (List.cons.inj this).2.symm
        have hqmem : q ∈ I.m_phase := List.getElem?_mem hq
        have hqne : 0 < q.m_command.size := (hall q hqmem).2.2
        have hqne2 : 0 < q.m_command.m_seq.length := hqne
        have hstep := next_command_transition fns I p q hp hd hq (hall q hqmem).2.1 hqne
        have hidx1 : I.m_phase_idx + 1 < I.m_phase.length := (List.getElem?_eq_some.mp hq).1
        have hih := ih
          { I with m_phase_idx := I.m_phase_idx + 1,
                   m_phase := I.m_phase.set (I.m_phase_idx + 1) { q with m_cmd_idx := 1 } }
          { q with m_cmd_idx := 1 }
          (by
            intro r hr
            rcases List.mem_or_eq_of_mem_set hr with h | h
            · exact hall r h
            · subst h; exact hall q hqmem)
          (List.getElem?_set_self hidx1)
          (by show 1 ≤ q.m_command.size; omega)
          (by
            show n = (q.m_command.size - 1) +
              ((List.drop (I.m_phase_idx + 1 + 1) (I.m_phase.set (I.m_phase_idx + 1) _)).map _).sum
            rw [List.drop_set_of_lt _ _ (Nat.lt_add_one _), hrest]
            rw [hdrop] at hn
            simp only [List.map_cons, List.sum_cons] at hn
            omega)
        simp only [run_commands, hstep, hih, List.get_eq_getElem]
        rw [List.drop_set_of_lt _ _ (Nat.lt_add_one _), hrest]
        have h0 : p.m_command.m_seq.drop p.m_cmd_idx = [] :=
          List.drop_eq_nil_of_le (by show p.m_command.size ≤ p.m_cmd_idx; omega)
        have h1 : q.m_command.m_seq = q.m_command.m_seq[0] :: q.m_command.m_seq.drop 1 := by
          have := List.drop_eq_getElem_cons hqne2
          simpa using this
        rw [h0]
        simp only [List.flatMap_cons, List.nil_append, List.map_append, List.map_cons]
        conv_rhs => rw [h1]
        simp


theorem getElem?_set_of_ne {α : Type} (l : List α) (i j : Nat) (a : α) (h : j ≠ i) :
    (l.set i a)[j]? = l[j]? := by
  rw [List.getElem?_set]
  simp [Ne.symm h]

/-- What a successful `phase->next_command()` has done. -/
theorem phase_next_command_ok (I : Integrator G) (k : Nat) (cmd : CommandStruct)
    (h : (phase_next_command I k).1 = .ok cmd) :
    ∃ p : Phase, I.m_phase[k]? = some p ∧ p.m_cmd_idx < p.m_command.size ∧
      p.m_command.m_seq[p.m_cmd_idx]? = some cmd ∧
      (phase_next_command I k).2 =
        { I with m_phase := I.m_phase.set k { p with m_cmd_idx := p.m_cmd_idx + 1 } } := by
  unfold phase_next_command at h ⊢
  cases hk : I.m_phase[k]? with
  | none => simp [hk] at h
  | some p =>
    simp only [hk] at h ⊢
    rcases Nat.lt_or_ge p.m_cmd_idx p.m_command.size with hlt | hge
    · have hstep := Phase.next_command_of_lt p hlt
      have hlt2 : p.m_cmd_idx < p.m_command.m_seq.length := hlt
      rw [hstep] at h ⊢
      refine ⟨p, rfl, hlt, ?_, rfl⟩
      have : p.m_command.m_seq[p.m_cmd_idx] = cmd := by simpa using h
      rw [List.getElem?_eq_getElem hlt2, this]
    · rw [Phase.next_command_of_ge p hge] at h
      cases h

/-- What a call of the base `next_command()` that returns a command has done:
the command is the one before the cursor of the phase that is current after
the call. -/
theorem next_command_ok (fns : UserFunctions G) (I : Integrator G) (cmd : CommandStruct)
    (h : (next_command fns (next_phase fns) I).1 = .ok cmd) :
    ∃ p : Phase, p.m_cmd_idx < p.m_command.size ∧ p.m_command.m_seq[p.m_cmd_idx]? = some cmd ∧
      (next_command fns (next_phase fns) I).2.m_phase_idx <
        (next_command fns (next_phase fns) I).2.m_phase.length ∧
      (next_command fns (next_phase fns) I).2.current_phase =
        .ok { p with m_cmd_idx := p.m_cmd_idx + 1 } := by
  unfold next_command at h ⊢
  cases hcur : I.current_phase with
  | error e => simp [hcur] at h
  | ok p0 =>
    simp only [hcur] at h ⊢
    by_cases hd : p0.done fns I.gdata = true
    · simp only [hd, if_true] at h ⊢
      unfold next_phase enter_phase at h ⊢
      cases hq : I.m_phase[I.m_phase_idx + 1]? with
      | none => simp [hq] at h
      | some q =>
        simp only [hq] at h ⊢
        obtain ⟨p, hp, hlt, hcmd, hres⟩ := phase_next_command_ok _ _ cmd h
        have hlen : I.m_phase_idx + 1 < I.m_phase.length := (List.getElem?_eq_some.mp hq).1
        refine ⟨p, hlt, hcmd, ?_, ?_⟩
        · rw [hres]; simpa using hlen
        · rw [hres]; simp [current_phase, hlen]
    · simp only [hd] at h ⊢
      obtain ⟨p, hp, hlt, hcmd, hres⟩ := phase_next_command_ok _ _ cmd h
      have hlen : I.m_phase_idx < I.m_phase.length := (List.getElem?_eq_some.mp hp).1
      refine ⟨p, hlt, hcmd, ?_, ?_⟩
      · simp only [Bool.false_eq_true, if_false]; rw [hres]; simpa using hlen
      · simp only [Bool.false_eq_true, if_false]; rw [hres]; simp [current_phase, hlen]

end Integrator

/-! ## The claims -/

section Claims

variable {G : Type}

/-- C2 (as amended): when the current phase reports done, `next_command`
performs the transition through `next_phase()` and returns the result of
`next_command()` on the phase so entered (or the error of `next_phase()`).
With the base `next_phase()`, when phase `index + 1` exists, is non-empty and
keeps the default reset function, the result is the command at index 0 of
phase `index + 1`, whose cursor was reset to 0 on entry and is 1 afterwards;
every other phase, the one left included, is unchanged. -/
theorem Integrator.next_command_done_enters_next_phase (fns : UserFunctions G)
    (I : Integrator G) (p : Phase)
    (hp : I.m_phase[I.m_phase_idx]? = some p) (hd : p.done fns I.gdata = true) :
    (∀ nv : Integrator G → Except Error Nat × Integrator G,
      Integrator.next_command fns nv I =
        match nv I with
        | (.error e, I1) => (.error e, I1)
        | (.ok phase, I1) => Integrator.phase_next_command I1 phase) ∧
    (∀ (q : Phase) (hne : 0 < q.m_command.size),
      I.m_phase[I.m_phase_idx + 1]? = some q → q.m_reset_func = reset_t.default_reset →
      (Integrator.next_phase fns I).1 = .ok (I.m_phase_idx + 1) ∧
      (Integrator.next_phase fns I).2.m_phase[I.m_phase_idx + 1]? =
        some { q with m_cmd_idx := 0 } ∧
      (Integrator.next_command fns (Integrator.next_phase fns) I).1 =
        .ok (q.m_command.m_seq.get ⟨0, hne⟩) ∧
      (Integrator.next_command fns (Integrator.next_phase fns) I).2.m_phase_idx =
        I.m_phase_idx + 1 ∧
      (Integrator.next_command fns (Integrator.next_phase fns) I).2.m_phase[I.m_phase_idx + 1]? =
        some { q with m_cmd_idx := 1 } ∧
      (∀ j, j ≠ I.m_phase_idx + 1 →
        (Integrator.next_command fns (Integrator.next_phase fns) I).2.m_phase[j]? =
          I.m_phase[j]?)) := by
  refine ⟨fun nv => Integrator.next_command_done fns nv I p hp hd, ?_⟩
  intro q hne hq hr
  have hlen : I.m_phase_idx + 1 < I.m_phase.length := (List.getElem?_eq_some.mp hq).1
  rw [Integrator.next_command_transition fns I p q hp hd hq hr hne, Integrator.next_phase,
    Integrator.enter_phase_default fns I _ q hq hr]
  refine ⟨rfl, List.getElem?_set_self hlen, rfl, rfl, List.getElem?_set_self hlen, ?_⟩
  intro j hj
  exact Integrator.getElem?_set_of_ne _ _ _ _ hj

/-- C3 (as amended): when the current phase does not report done,
`next_command` (whatever the `next_phase()` override) leaves the current-phase
index, the global data, the name, the number of phases and every other phase
unchanged, and does to the current phase what its own `next_command` does.
When moreover the cursor of the current phase is below its number of commands,
the call returns the command at the cursor and only advances that cursor by
one.  The call that returns the last command of a phase with the default
`is_done` is such a call; the transition is made by the following call. -/
theorem Integrator.next_command_not_done_advances_cursor (fns : UserFunctions G)
    (nv : Integrator G → Except Error Nat × Integrator G) (I : Integrator G) (p : Phase)
    (hp : I.m_phase[I.m_phase_idx]? = some p) (hd : p.done fns I.gdata = false) :
    (Integrator.next_command fns nv I).2.m_phase_idx = I.m_phase_idx ∧
    (Integrator.next_command fns nv I).2.gdata = I.gdata ∧
    (Integrator.next_command fns nv I).2.m_name = I.m_name ∧
    (Integrator.next_command fns nv I).2.m_phase.length = I.m_phase.length ∧
    (∀ j, j ≠ I.m_phase_idx →
      (Integrator.next_command fns nv I).2.m_phase[j]? = I.m_phase[j]?) ∧
    (Integrator.next_command fns nv I).1 = p.next_command.1 ∧
    (Integrator.next_command fns nv I).2.m_phase[I.m_phase_idx]? = some p.next_command.2 ∧
    (∀ hlt : p.m_cmd_idx < p.m_command.size,
      (Integrator.next_command fns nv I).1 = .ok (p.m_command.m_seq.get ⟨p.m_cmd_idx, hlt⟩) ∧
      (Integrator.next_command fns nv I).2.m_phase[I.m_phase_idx]? =
        some { p with m_cmd_idx := p.m_cmd_idx + 1 } ∧
      (p.m_is_done = should_run_t.default_is_done → p.m_cmd_idx + 1 = p.m_command.size →
        Integrator.next_command fns nv (Integrator.next_command fns nv I).2 =
          match nv (Integrator.next_command fns nv I).2 with
          | (.error e, I1) => (.error e, I1)
          | (.ok phase, I1) => Integrator.phase_next_command I1 phase)) := by
  have hlen : I.m_phase_idx < I.m_phase.length := (List.getElem?_eq_some.mp hp).1
  rw [Integrator.next_command_not_done fns nv I p hp hd]
  refine ⟨rfl, rfl, rfl, List.length_set _ _ _, ?_, rfl, List.getElem?_set_self hlen, ?_⟩
  · intro j hj
    exact Integrator.getElem?_set_of_ne _ _ _ _ hj
  · intro hlt
    rw [Phase.next_command_of_lt p hlt]
    refine ⟨rfl, List.getElem?_set_self hlen, ?_⟩
    intro hdef hlast
    exact Integrator.next_command_done fns nv _ { p with m_cmd_idx := p.m_cmd_idx + 1 }
      (List.getElem?_set_self hlen)
      ((Phase.default_done_iff fns I.gdata { p with m_cmd_idx := p.m_cmd_idx + 1 }
        hdef).mpr hlast)

/-- C4: for a base integrator whose phases are all non-empty and keep the
default `is_done` predicate and the default reset function, the first
`|P0| + ... + |Pk-1|` calls of `next_command()` after `start()` return the
commands of `P0` in append order, then those of `P1`, and so on. -/
theorem Integrator.run_commands_visits_phases_in_order (fns : UserFunctions G)
    (I : Integrator G)
    (hall : ∀ q ∈ I.m_phase, q.not_empty = true ∧
      q.m_is_done = should_run_t.default_is_done ∧ q.m_reset_func = reset_t.default_reset) :
    (Integrator.run_commands fns ((I.m_phase.map (fun q => q.m_command.size)).sum)
      (Integrator.start fns I).2).1 =
      (I.m_phase.flatMap (fun q => q.m_command.m_seq)).map Except.ok := by
  cases hps : I.m_phase with
  | nil => simp [Integrator.run_commands]
  | cons p0 rest =>
    have hp0 : I.m_phase[0]? = some p0 := by simp [hps]
    have hmem0 : p0 ∈ I.m_phase := List.getElem?_mem hp0
    have hlen : 0 < I.m_phase.length := (List.getElem?_eq_some.mp hp0).1
    have hstart : (Integrator.start fns I).2 =
        { I with m_phase_idx := 0, m_phase := I.m_phase.set 0 { p0 with m_cmd_idx := 0 } } := by
      simp [Integrator.start, Integrator.enter_phase_default fns I 0 p0 hp0 (hall p0 hmem0).2.2]
    rw [hstart]
    have hrun := Integrator.run_commands_from fns
      (((p0 :: rest).map (fun q => q.m_command.size)).sum)
      { I with m_phase_idx := 0, m_phase := I.m_phase.set 0 { p0 with m_cmd_idx := 0 } }
      { p0 with m_cmd_idx := 0 }
      (by
        intro q hq
        rcases List.mem_or_eq_of_mem_set hq with h | h
        · exact ⟨(hall q h).2.1, (hall q h).2.2, (Phase.not_empty_iff q).mp (hall q h).1⟩
        · subst h
          exact ⟨(hall p0 hmem0).2.1, (hall p0 hmem0).2.2,
            (Phase.not_empty_iff p0).mp (hall p0 hmem0).1⟩)
      (List.getElem?_set_self hlen)
      (Nat.zero_le _)
      (by
        show _ = (p0.m_command.size - 0) +
          ((List.drop (0 + 1) (I.m_phase.set 0 _)).map _).sum
        rw [List.drop_set_of_lt _ _ (Nat.lt_add_one _), hps]
        simp)
    rw [hrun]
    show List.map Except.ok (List.drop 0 p0.m_command.m_seq ++
      (List.drop (0 + 1) (I.m_phase.set 0 _)).flatMap _) = _
    rw [List.drop_set_of_lt _ _ (Nat.lt_add_one _), hps]
    simp

/-- C5 (as amended): a command returned by the base `next_command()` is the
command before the cursor of the phase that is current after the call, and
that phase is non-empty: when it keeps the default `should_run` predicate, its
`should_run` is true, whatever the global data.  A predicate installed with
`should_run_if` is not consulted. -/
theorem Integrator.next_command_phase_runs_by_default (fns : UserFunctions G)
    (I : Integrator G) (cmd : CommandStruct)
    (h : (Integrator.next_command fns (Integrator.next_phase fns) I).1 = .ok cmd) :
    ∃ p : Phase,
      (Integrator.next_command fns (Integrator.next_phase fns) I).2.current_phase = .ok p ∧
      0 < p.m_cmd_idx ∧ p.m_command.m_seq[p.m_cmd_idx - 1]? = some cmd ∧
      p.not_empty = true ∧
      (p.m_should_run = should_run_t.default_should_run → ∀ g : G, p.should_run fns g = true) := by
  obtain ⟨p, hlt, hcmd, _, hcur⟩ := Integrator.next_command_ok fns I cmd h
  have hne : ({ p with m_cmd_idx := p.m_cmd_idx + 1 } : Phase).not_empty = true :=
    (Phase.not_empty_iff _).mpr (Nat.lt_of_le_of_lt (Nat.zero_le _) hlt)
  refine ⟨{ p with m_cmd_idx := p.m_cmd_idx + 1 }, hcur, Nat.succ_pos _, ?_, hne, ?_⟩
  · simpa using hcmd
  · intro hdef g
    simp only [Phase.should_run, Phase.call_predicate] at hdef ⊢
    rw [hdef]
    exact hne

/-- C6: the phase invariant `0 <= cursor <= number of commands` holds for a
newly constructed phase and is preserved by `add_command`, `edit_command`,
`reset_index`, `reset` with the default reset function, and `next_command`,
whether it returns a command or fails. -/
theorem Phase.cursor_in_range_preserved (fns : UserFunctions G) (owner : Integrator G)
    (table : CommandTable) (p : Phase) (h : p.cursor_in_range) :
    (∀ name : String, (Phase.new name).cursor_in_range) ∧
    (∀ cmd : CommandName, (p.add_command table cmd).2.cursor_in_range) ∧
    (∀ (idx : Nat) (edit : CommandStruct → CommandStruct),
      (p.edit_command idx edit).2.cursor_in_range) ∧
    p.reset_index.cursor_in_range ∧
    (p.m_reset_func = reset_t.default_reset → (p.reset fns owner).cursor_in_range) ∧
    p.next_command.2.cursor_in_range := by
  have h1 : p.m_cmd_idx ≤ p.m_command.m_seq.length := h
  refine ⟨?_, ?_, ?_, ?_, ?_, ?_⟩
  · intro name
    exact Nat.le_refl 0
  · intro cmd
    show p.m_cmd_idx ≤ (p.m_command.m_seq ++ [CommandStruct.new table cmd]).length
    rw [List.length_append]
    omega
  · intro idx edit
    unfold Phase.edit_command
    cases hat : p.m_command.at idx with
    | error e => exact h
    | ok c =>
      show p.m_cmd_idx ≤ (p.m_command.m_seq.set idx (edit c)).length
      rw [List.length_set]
      exact h1
  · exact Nat.zero_le _
  · intro hr
    rw [Phase.reset_default fns owner p hr]
    exact Nat.zero_le _
  · rcases Nat.lt_or_ge p.m_cmd_idx p.m_command.size with hlt | hge
    · rw [Phase.next_command_of_lt p hlt]
      exact hlt
    · rw [Phase.next_command_of_ge p hge]
      exact h

/-- C7 (as amended): the current-phase index of a newly constructed integrator
is in `[0, phase count)` once at least one phase has been added to it; the
invariant is preserved by `start()`, which then succeeds, and it holds after
every call of the base `next_command()` that returns a command. -/
theorem Integrator.phase_idx_in_range_preserved (fns : UserFunctions G) (I : Integrator G)
    (h : I.phase_idx_in_range) :
    (∀ (gdata : G) (name : String) (phases : List Phase), phases ≠ [] →
      ({ Integrator.new gdata name with m_phase := phases } : Integrator G).phase_idx_in_range) ∧
    (Integrator.start fns I).1 = .ok () ∧
    (Integrator.start fns I).2.phase_idx_in_range ∧
    (∀ cmd : CommandStruct,
      (Integrator.next_command fns (Integrator.next_phase fns) I).1 = .ok cmd →
      (Integrator.next_command fns (Integrator.next_phase fns) I).2.phase_idx_in_range) := by
  have hlen : 0 < I.m_phase.length := Nat.lt_of_le_of_lt (Nat.zero_le _) h
  refine ⟨?_, ?_, ?_, ?_⟩
  · intro gdata name phases hne
    exact List.length_pos.mpr hne
  · unfold Integrator.start Integrator.enter_phase
    rw [List.getElem?_eq_getElem hlen]
  · unfold Integrator.start Integrator.enter_phase
    rw [List.getElem?_eq_getElem hlen]
    show 0 < (I.m_phase.set 0 _).length
    rw [List.length_set]
    exact hlen
  · intro cmd hcmd
    obtain ⟨_, _, _, hin, _⟩ := Integrator.next_command_ok fns I cmd hcmd
    exact hin

/-- C8: with the default `is_done` predicate, `done()` holds if and only if
the cursor equals the number of commands; for a phase with `n >= 1` commands
and cursor 0, `done()` is false after `k < n` calls of `next_command` and true
after `n` calls. -/
theorem Phase.default_done_after_calls (fns : UserFunctions G) (g : G) (p : Phase)
    (hd : p.m_is_done = should_run_t.default_is_done) :
    (p.done fns g = true ↔ p.m_cmd_idx = p.m_command.size) ∧
    (p.m_cmd_idx = 0 → 1 ≤ p.m_command.size →
      (∀ k, k < p.m_command.size → (Phase.drain k p).2.done fns g = false) ∧
      (Phase.drain p.m_command.size p).2.done fns g = true) := by
  refine ⟨Phase.default_done_iff fns g p hd, ?_⟩
  intro h0 _
  constructor
  · intro k hk
    rw [Phase.drain_eq k p (by omega)]
    have hiff := Phase.default_done_iff fns g { p with m_cmd_idx := p.m_cmd_idx + k } hd
    cases hdone : Phase.done fns { p with m_cmd_idx := p.m_cmd_idx + k } g with
    | false => rfl
    | true =>
      have : p.m_cmd_idx + k = p.m_command.size := hiff.mp hdone
      omega
  · rw [Phase.drain_eq _ p (by omega)]
    exact (Phase.default_done_iff fns g { p with m_cmd_idx := p.m_cmd_idx + p.m_command.size }
      hd).mpr (by show p.m_cmd_idx + p.m_command.size = p.m_command.size; omega)

theorem Phase.drain_exhausted (n : Nat) (p : Phase) (h : p.m_command.size ≤ p.m_cmd_idx) :
    Phase.drain n p = (List.replicate n (.error Error.out_of_range), p) := by
  induction n with
  | zero => rfl
  | succ n ih => simp [Phase.drain, Phase.next_command_of_ge p h, ih, List.replicate_succ]

/-- C9: a phase constructed with no command and the default predicates reports
`done()` at once, and every call of its `next_command` fails with
`out_of_range` and leaves it as it was, however many calls came before. -/
theorem Phase.new_done_never_yields (fns : UserFunctions G) (g : G) (name : String) :
    (Phase.new name).done fns g = true ∧
    (∀ n : Nat,
      (Phase.drain n (Phase.new name)).1 = List.replicate n (.error Error.out_of_range) ∧
      (Phase.drain n (Phase.new name)).2 = Phase.new name ∧
      (Phase.drain n (Phase.new name)).2.next_command.1 = .error Error.out_of_range) := by
  have hex : (Phase.new name).m_command.size ≤ (Phase.new name).m_cmd_idx := Nat.le_refl 0
  refine ⟨rfl, ?_⟩
  intro n
  rw [Phase.drain_exhausted n _ hex, Phase.next_command_of_ge _ hex]
  exact ⟨rfl, rfl, rfl⟩

/-- C10: with the default reset function and any cursor value, `reset()` sets
the cursor to 0 and leaves the command list unchanged; draining the phase
after a reset (or from cursor 0), resetting it and draining it again returns
the commands in append order both times. -/
theorem Phase.default_reset_replays (fns : UserFunctions G) (owner : Integrator G) (p : Phase)
    (hr : p.m_reset_func = reset_t.default_reset) :
    (p.reset fns owner).m_cmd_idx = 0 ∧
    (p.reset fns owner).m_command = p.m_command ∧
    (Phase.drain p.m_command.size (p.reset fns owner)).1 =
      p.m_command.m_seq.map Except.ok ∧
    (Phase.drain p.m_command.size
      ((Phase.drain p.m_command.size (p.reset fns owner)).2.reset fns owner)).1 =
      p.m_command.m_seq.map Except.ok ∧
    (p.m_cmd_idx = 0 →
      (Phase.drain p.m_command.size p).1 = p.m_command.m_seq.map Except.ok ∧
      (Phase.drain p.m_command.size
        ((Phase.drain p.m_command.size p).2.reset fns owner)).1 =
        p.m_command.m_seq.map Except.ok) := by
  have hfull : ∀ q : Phase, q.m_command = p.m_command → q.m_cmd_idx = 0 →
      Phase.drain p.m_command.size q =
        (p.m_command.m_seq.map Except.ok, { q with m_cmd_idx := p.m_command.size }) := by
    intro q hq h0
    rw [Phase.drain_eq _ q (by rw [hq, h0]; omega), hq, h0]
    simp [CommandSequence.size]
  have hre : Phase.reset fns owner { p with m_cmd_idx := p.m_command.size } =
      { p with m_cmd_idx := 0 } :=
    Phase.reset_default fns owner { p with m_cmd_idx := p.m_command.size } hr
  refine ⟨?_, ?_, ?_, ?_, ?_⟩
  · rw [Phase.reset_default fns owner p hr]
  · rw [Phase.reset_default fns owner p hr]
  · rw [Phase.reset_default fns owner p hr, hfull { p with m_cmd_idx := 0 } rfl rfl]
  · rw [Phase.reset_default fns owner p hr, hfull { p with m_cmd_idx := 0 } rfl rfl]
    show (Phase.drain p.m_command.size
      (Phase.reset fns owner { p with m_cmd_idx := p.m_command.size })).1 = _
    rw [hre, hfull { p with m_cmd_idx := 0 } rfl rfl]
  · intro h0
    rw [hfull p rfl h0]
    refine ⟨rfl, ?_⟩
    show (Phase.drain p.m_command.size
      (Phase.reset fns owner { p with m_cmd_idx := p.m_command.size })).1 = _
    rw [hre, hfull { p with m_cmd_idx := 0 } rfl rfl]

end Claims

/-! ## Witnesses and counterexamples -/

/-- C1 witness: the phase `A` with two commands, after one call. -/
theorem Phase.next_command_returns_cursor_command_witness :
    (example_phase "A" [0, 1]).next_command.2.m_cmd_idx <
      (example_phase "A" [0, 1]).next_command.2.m_command.size ∧
    (example_phase "A" [0, 1]).next_command.2.next_command.1 =
      .ok (CommandStruct.new example_table 1) ∧
    (example_phase "A" [0, 1]).next_command.2.next_command.2.m_cmd_idx = 2 :=
  ⟨by decide,
   (Phase.next_command_returns_cursor_command
      (example_phase "A" [0, 1]).next_command.2 (by decide)).1,
   (Phase.next_command_returns_cursor_command
      (example_phase "A" [0, 1]).next_command.2 (by decide)).2.1⟩

/-- C2 witness: in `example_converged` the phase `A` reports done with a
command left; the call enters `B` and returns its command. -/
theorem Integrator.next_command_done_enters_next_phase_witness :
    example_converged.m_phase[example_converged.m_phase_idx]? = some example_phase_A1 ∧
    example_phase_A1.done example_functions example_converged.gdata = true ∧
    example_phase_A1.m_cmd_idx < example_phase_A1.m_command.size ∧
    (Integrator.next_command example_functions (Integrator.next_phase example_functions)
      example_converged).1 = .ok (CommandStruct.new example_table 2) ∧
    (Integrator.next_command example_functions (Integrator.next_phase example_functions)
      example_converged).2.m_phase_idx = 1 ∧
    (Integrator.next_command example_functions (Integrator.next_phase example_functions)
      example_converged).2.m_phase[1]? = some { example_phase "B" [2] with m_cmd_idx := 1 } ∧
    (Integrator.next_command example_functions (Integrator.next_phase example_functions)
      example_converged).2.m_phase[0]? = some example_phase_A1 :=
  ⟨by decide, by decide, by decide,
   ((Integrator.next_command_done_enters_next_phase example_functions example_converged
      example_phase_A1 (by decide) (by decide)).2 (example_phase "B" [2]) (by decide)
      (by decide) (by decide)).2.2.1,
   ((Integrator.next_command_done_enters_next_phase example_functions example_converged
      example_phase_A1 (by decide) (by decide)).2 (example_phase "B" [2]) (by decide)
      (by decide) (by decide)).2.2.2.1,
   ((Integrator.next_command_done_enters_next_phase example_functions example_converged
      example_phase_A1 (by decide) (by decide)).2 (example_phase "B" [2]) (by decide)
      (by decide) (by decide)).2.2.2.2.1,
   ((Integrator.next_command_done_enters_next_phase example_functions example_converged
      example_phase_A1 (by decide) (by decide)).2 (example_phase "B" [2]) (by decide)
      (by decide) (by decide)).2.2.2.2.2 0 (by decide)⟩

/-- C2 counterexample: the current phase reports done and the base
`next_command()` does not return the command at index 0 of phase `index + 1`
with its cursor at 1 afterwards: when that phase is empty the call fails and
the cursor stays 0; when there is no such phase the call fails; when its reset
function keeps the cursor the call returns the command at index 1. -/
theorem Integrator.next_command_done_counterexample :
    (example_next_empty.m_phase[example_next_empty.m_phase_idx]?.map
        (fun p => p.done example_functions example_next_empty.gdata) = some true ∧
      (Integrator.next_command example_functions (Integrator.next_phase example_functions)
        example_next_empty).1 = .error Error.out_of_range ∧
      (Integrator.next_command example_functions (Integrator.next_phase example_functions)
        example_next_empty).2.m_phase[1]?.map (fun p => p.m_cmd_idx) = some 0) ∧
    (example_last_phase.m_phase[example_last_phase.m_phase_idx]?.map
        (fun p => p.done example_functions example_last_phase.gdata) = some true ∧
      (Integrator.next_command example_functions (Integrator.next_phase example_functions)
        example_last_phase).1 = .error Error.out_of_range) ∧
    (example_next_keeps_cursor.m_phase[example_next_keeps_cursor.m_phase_idx]?.map
        (fun p => p.done example_functions example_next_keeps_cursor.gdata) = some true ∧
      example_next_keeps_cursor.m_phase[1]?.map (fun p => p.m_command.at 0) =
        some (.ok (CommandStruct.new example_table 1)) ∧
      (Integrator.next_command example_functions (Integrator.next_phase example_functions)
        example_next_keeps_cursor).1 = .ok (CommandStruct.new example_table 2) ∧
      (Integrator.next_command example_functions (Integrator.next_phase example_functions)
        example_next_keeps_cursor).2.m_phase[1]?.map (fun p => p.m_cmd_idx) = some 2) := by
  decide

/-- C3 witness: the phase `A` of the two-phase scenario is not done; the call
returns its only command, leaves the index at 0 and the phase `B` as it was. -/
theorem Integrator.next_command_not_done_advances_cursor_witness :
    example_two_phases.m_phase[example_two_phases.m_phase_idx]? =
      some (example_phase "A" [0]) ∧
    (example_phase "A" [0]).done example_functions example_two_phases.gdata = false ∧
    (example_phase "A" [0]).m_cmd_idx < (example_phase "A" [0]).m_command.size ∧
    (Integrator.next_command example_functions (Integrator.next_phase example_functions)
      example_two_phases).1 = .ok (CommandStruct.new example_table 0) ∧
    (Integrator.next_command example_functions (Integrator.next_phase example_functions)
      example_two_phases).2.m_phase_idx = 0 ∧
    (Integrator.next_command example_functions (Integrator.next_phase example_functions)
      example_two_phases).2.m_phase[0]? = some { example_phase "A" [0] with m_cmd_idx := 1 } ∧
    (Integrator.next_command example_functions (Integrator.next_phase example_functions)
      example_two_phases).2.m_phase[1]? = some (example_phase "B" [1]) :=
  ⟨by decide, by decide, by decide,
   ((Integrator.next_command_not_done_advances_cursor example_functions
      (Integrator.next_phase example_functions) example_two_phases (example_phase "A" [0])
      (by decide) (by decide)).2.2.2.2.2.2.2 (by decide)).1,
   (Integrator.next_command_not_done_advances_cursor example_functions
      (Integrator.next_phase example_functions) example_two_phases (example_phase "A" [0])
      (by decide) (by decide)).1,
   ((Integrator.next_command_not_done_advances_cursor example_functions
      (Integrator.next_phase example_functions) example_two_phases (example_phase "A" [0])
      (by decide) (by decide)).2.2.2.2.2.2.2 (by decide)).2.1,
   (Integrator.next_command_not_done_advances_cursor example_functions
      (Integrator.next_phase example_functions) example_two_phases (example_phase "A" [0])
      (by decide) (by decide)).2.2.2.2.1 1 (by decide)⟩

/-- C3 counterexample: in `example_exhausted` the current phase does not
report done, and `next_command()` does not advance its cursor: the call fails
and the cursor, 1 before the call, is 1 after it. -/
theorem Integrator.next_command_not_done_counterexample :
    example_exhausted.m_phase[example_exhausted.m_phase_idx]?.map
      (fun p => p.done example_functions example_exhausted.gdata) = some false ∧
    example_exhausted.m_phase[example_exhausted.m_phase_idx]?.map
      (fun p => p.m_cmd_idx) = some 1 ∧
    (Integrator.next_command example_functions (Integrator.next_phase example_functions)
      example_exhausted).1 = .error Error.out_of_range ∧
    (Integrator.next_command example_functions (Integrator.next_phase example_functions)
      example_exhausted).2.m_phase[example_exhausted.m_phase_idx]?.map
      (fun p => p.m_cmd_idx) = some 1 := by
  decide

/-- C4 witness: the two-phase scenario yields the command of `A`, then the
command of `B`. -/
theorem Integrator.run_commands_visits_phases_in_order_witness :
    (∀ q ∈ example_two_phases.m_phase, q.not_empty = true ∧
      q.m_is_done = should_run_t.default_is_done ∧ q.m_reset_func = reset_t.default_reset) ∧
    (Integrator.run_commands example_functions 2
      (Integrator.start example_functions example_two_phases).2).1 =
      [.ok (CommandStruct.new example_table 0), .ok (CommandStruct.new example_table 1)] :=
  ⟨by decide,
   Integrator.run_commands_visits_phases_in_order example_functions example_two_phases
     (by decide)⟩

/-- C5 witness: the first command of the two-phase scenario comes from `A`,
which keeps the default `should_run`. -/
theorem Integrator.next_command_phase_runs_by_default_witness :
    (Integrator.next_command example_functions (Integrator.next_phase example_functions)
      (Integrator.start example_functions example_two_phases).2).1 =
      .ok (CommandStruct.new example_table 0) ∧
    ∃ p : Phase,
      (Integrator.next_command example_functions (Integrator.next_phase example_functions)
        (Integrator.start example_functions example_two_phases).2).2.current_phase = .ok p ∧
      0 < p.m_cmd_idx ∧
      p.m_command.m_seq[p.m_cmd_idx - 1]? = some (CommandStruct.new example_table 0) ∧
      p.not_empty = true ∧
      (p.m_should_run = should_run_t.default_should_run →
        ∀ g : Bool, p.should_run example_functions g = true) :=
  ⟨by decide,
   Integrator.next_command_phase_runs_by_default example_functions
     (Integrator.start example_functions example_two_phases).2
     (CommandStruct.new example_table 0) (by decide)⟩

/-- C5 counterexample: in `example_disabled` the predicate installed on `B`
with `should_run_if` is false throughout, and the second call of
`next_command()` after `start()` returns the command of `B`. -/
theorem Integrator.next_command_should_run_counterexample :
    (Integrator.start example_functions example_disabled).2.m_phase[1]?.map
      (fun p => p.should_run example_functions false) = some false ∧
    (Integrator.run_commands example_functions 1
      (Integrator.start example_functions example_disabled).2).2.m_phase[1]?.map
      (fun p => p.should_run example_functions false) = some false ∧
    (Integrator.run_commands example_functions 2
      (Integrator.start example_functions example_disabled).2).2.m_phase[1]?.map
      (fun p => p.should_run example_functions false) = some false ∧
    (Integrator.run_commands example_functions 2
      (Integrator.start example_functions example_disabled).2).1 =
      [.ok (CommandStruct.new example_table 0), .ok (CommandStruct.new example_table 1)] ∧
    (Integrator.run_commands example_functions 2
      (Integrator.start example_functions example_disabled).2).2.m_phase_idx = 1 ∧
    (example_phase "B" [1]).m_command.m_seq = [CommandStruct.new example_table 1] := by
  decide

/-- C6 witness: the phase `A` of `example_converged`, with cursor 1 of 2
commands. -/
theorem Phase.cursor_in_range_preserved_witness :
    example_phase_A1.cursor_in_range ∧
    (example_phase_A1.add_command example_table 2).2.cursor_in_range ∧
    (example_phase_A1.edit_command 0 (fun c => { c with src := "step n" })).2.cursor_in_range ∧
    (example_phase_A1.edit_command 7 (fun c => c)).2.cursor_in_range ∧
    example_phase_A1.reset_index.cursor_in_range ∧
    (example_phase_A1.reset example_functions example_converged).cursor_in_range ∧
    example_phase_A1.next_command.2.cursor_in_range ∧
    example_phase_A1.next_command.2.next_command.2.cursor_in_range :=
  ⟨by decide,
   (Phase.cursor_in_range_preserved example_functions example_converged example_table
      example_phase_A1 (by decide)).2.1 2,
   (Phase.cursor_in_range_preserved example_functions example_converged example_table
      example_phase_A1 (by decide)).2.2.1 0 _,
   (Phase.cursor_in_range_preserved example_functions example_converged example_table
      example_phase_A1 (by decide)).2.2.1 7 _,
   (Phase.cursor_in_range_preserved example_functions example_converged example_table
      example_phase_A1 (by decide)).2.2.2.1,
   (Phase.cursor_in_range_preserved example_functions example_converged example_table
      example_phase_A1 (by decide)).2.2.2.2.1 (by decide),
   (Phase.cursor_in_range_preserved example_functions example_converged example_table
      example_phase_A1 (by decide)).2.2.2.2.2,
   (Phase.cursor_in_range_preserved example_functions example_converged example_table
      example_phase_A1.next_command.2 (by decide)).2.2.2.2.2⟩

/-- C7 witness: the two-phase scenario. -/
theorem Integrator.phase_idx_in_range_preserved_witness :
    example_two_phases.phase_idx_in_range ∧
    (Integrator.start example_functions example_two_phases).1 = .ok () ∧
    (Integrator.start example_functions example_two_phases).2.phase_idx_in_range ∧
    (Integrator.next_command example_functions (Integrator.next_phase example_functions)
      example_converged).1 = .ok (CommandStruct.new example_table 2) ∧
    (Integrator.next_command example_functions (Integrator.next_phase example_functions)
      example_converged).2.phase_idx_in_range :=
  ⟨by decide,
   (Integrator.phase_idx_in_range_preserved example_functions example_two_phases
      (by decide)).2.1,
   (Integrator.phase_idx_in_range_preserved example_functions example_two_phases
      (by decide)).2.2.1,
   by decide,
   (Integrator.phase_idx_in_range_preserved example_functions example_converged
      (by decide)).2.2.2 (CommandStruct.new example_table 2) (by decide)⟩

/-- C7 counterexample: a newly constructed integrator has no phase and index
0, which is not in `[0, 0)`. -/
theorem Integrator.new_phase_idx_counterexample :
    (Integrator.new false "example").m_phase.length = 0 ∧
    (Integrator.new false "example").m_phase_idx = 0 ∧
    ¬ (Integrator.new false "example").phase_idx_in_range := by
  decide

/-- C8 witness: a phase with two commands is not done after 0 or 1 call and is
done after 2. -/
theorem Phase.default_done_after_calls_witness :
    (example_phase "A" [0, 1]).m_is_done = should_run_t.default_is_done ∧
    (example_phase "A" [0, 1]).m_cmd_idx = 0 ∧
    (example_phase "A" [0, 1]).m_command.size = 2 ∧
    (Phase.drain 0 (example_phase "A" [0, 1])).2.done example_functions false = false ∧
    (Phase.drain 1 (example_phase "A" [0, 1])).2.done example_functions false = false ∧
    (Phase.drain 2 (example_phase "A" [0, 1])).2.done example_functions false = true :=
  ⟨by decide, by decide, by decide,
   ((Phase.default_done_after_calls example_functions false (example_phase "A" [0, 1])
      (by decide)).2 (by decide) (by decide)).1 0 (by decide),
   ((Phase.default_done_after_calls example_functions false (example_phase "A" [0, 1])
      (by decide)).2 (by decide) (by decide)).1 1 (by decide),
   ((Phase.default_done_after_calls example_functions false (example_phase "A" [0, 1])
      (by decide)).2 (by decide) (by decide)).2⟩

/-- C10 witness: a phase with two commands and cursor 1 replays both commands
after each reset. -/
theorem Phase.default_reset_replays_witness :
    (example_phase "A" [0, 1]).next_command.2.m_reset_func = reset_t.default_reset ∧
    (example_phase "A" [0, 1]).next_command.2.m_cmd_idx = 1 ∧
    ((example_phase "A" [0, 1]).next_command.2.reset example_functions
      example_two_phases).m_cmd_idx = 0 ∧
    (Phase.drain 2 ((example_phase "A" [0, 1]).next_command.2.reset example_functions
      example_two_phases)).1 =
      [.ok (CommandStruct.new example_table 0), .ok (CommandStruct.new example_table 1)] ∧
    (Phase.drain 2 ((Phase.drain 2 ((example_phase "A" [0, 1]).next_command.2.reset
      example_functions example_two_phases)).2.reset example_functions example_two_phases)).1 =
      [.ok (CommandStruct.new example_table 0), .ok (CommandStruct.new example_table 1)] :=
  ⟨by decide, by decide,
   (Phase.default_reset_replays example_functions example_two_phases
      (example_phase "A" [0, 1]).next_command.2 (by decide)).1,
   (Phase.default_reset_replays example_functions example_two_phases
      (example_phase "A" [0, 1]).next_command.2 (by decide)).2.2.1,
   (Phase.default_reset_replays example_functions example_two_phases
      (example_phase "A" [0, 1]).next_command.2 (by decide)).2.2.2.1⟩

/-! ## Commands, phases and the start of the integrator -/

section MoreClaims

variable {G : Type}

/-- C11: `next_command` called on an exhausted phase (cursor equal to the
number of commands) fails with `out_of_range` and leaves the phase as it was:
the cursor and the command list are unchanged and the phase stays exhausted,
however often the call is repeated. -/
theorem Phase.next_command_exhausted_fails (p : Phase)
    (h : p.m_cmd_idx = p.m_command.size) :
    p.next_command.1 = .error Error.out_of_range ∧
    p.next_command.2 = p ∧
    p.next_command.2.m_cmd_idx = p.m_cmd_idx ∧
    p.next_command.2.m_command = p.m_command ∧
    p.next_command.2.finished_commands = true ∧
    (∀ n : Nat, (Phase.drain n p).1 = List.replicate n (.error Error.out_of_range) ∧
      (Phase.drain n p).2 = p) := by
  have hge : p.m_command.size ≤ p.m_cmd_idx := Nat.le_of_eq h.symm
  rw [Phase.next_command_of_ge p hge]
  refine ⟨rfl, rfl, rfl, rfl, ?_, ?_⟩
  · simp [Phase.finished_commands, h]
  · intro n
    rw [Phase.drain_exhausted n p hge]
    exact ⟨rfl, rfl⟩

/-- C12: with the default `should_run` predicate, `should_run()` is true if and
only if the phase has at least one command, whatever the cursor and the global
data; it is false for an empty phase. -/
theorem Phase.default_should_run_iff (fns : UserFunctions G) (g : G) (p : Phase)
    (h : p.m_should_run = should_run_t.default_should_run) :
    (p.should_run fns g = true ↔ 1 ≤ p.m_command.size) ∧
    (∀ (cursor : Nat) (g2 : G),
      ({ p with m_cmd_idx := cursor } : Phase).should_run fns g2 = p.should_run fns g) ∧
    (p.m_command.size = 0 → p.should_run fns g = false) ∧
    (∀ name : String, (Phase.new name).should_run fns g = false) := by
  have hsr : ∀ (q : Phase) (g2 : G), q.m_should_run = should_run_t.default_should_run →
      q.should_run fns g2 = q.not_empty := by
    intro q g2 hq
    simp only [Phase.should_run, Phase.call_predicate, hq, Phase.default_should_run]
  refine ⟨?_, ?_, ?_, ?_⟩
  · rw [hsr p g h]
    exact Phase.not_empty_iff p
  · intro cursor g2
    rw [hsr p g h, hsr { p with m_cmd_idx := cursor } g2 h]
    rfl
  · intro h0
    rw [hsr p g h]
    cases hne : p.not_empty with
    | false => rfl
    | true =>
      have := (Phase.not_empty_iff p).mp hne
      omega
  · intro name
    rfl

/-- C13: for an integrator with at least one phase, whatever its state,
`start()` succeeds, makes phase 0 the current phase and calls its `reset()`
(which with the default reset function sets its cursor to 0 and changes nothing
else), leaving the other phases as they were; `POST_UPLOAD` has phase code 0,
so `PredictorCorrector::start` does the same as the base `start()`. -/
theorem Integrator.start_enters_phase_zero (fns : UserFunctions G) (I : Integrator G)
    (p0 : Phase) (h : I.m_phase[0]? = some p0) :
    (Integrator.start fns I).1 = .ok () ∧
    (Integrator.start fns I).2.m_phase_idx = 0 ∧
    (Integrator.start fns I).2.m_phase[0]? =
      some (p0.reset fns { I with m_phase_idx := 0 }) ∧
    (p0.m_reset_func = reset_t.default_reset →
      (Integrator.start fns I).2.m_phase[0]? = some { p0 with m_cmd_idx := 0 }) ∧
    (∀ j, j ≠ 0 → (Integrator.start fns I).2.m_phase[j]? = I.m_phase[j]?) ∧
    (Integrator.start fns I).2.gdata = I.gdata ∧
    (Integrator.start fns I).2.m_name = I.m_name ∧
    PhaseCode.POST_UPLOAD.code = 0 ∧
    PredictorCorrector.start fns I = Integrator.start fns I := by
  have hlen : 0 < I.m_phase.length := (List.getElem?_eq_some.mp h).1
  have hstart : Integrator.start fns I = (.ok (),
      { I with m_phase_idx := 0,
               m_phase := I.m_phase.set 0 (p0.reset fns { I with m_phase_idx := 0 }) }) := by
    simp [Integrator.start, Integrator.enter_phase, h]
  rw [hstart]
  refine ⟨rfl, rfl, List.getElem?_set_self hlen, ?_, ?_, rfl, rfl, rfl, ?_⟩
  · intro hr
    rw [Phase.reset_default fns _ p0 hr]
    exact List.getElem?_set_self hlen
  · intro j hj
    exact Integrator.getElem?_set_of_ne _ _ _ _ hj
  · rw [← hstart]
    rfl

/-- C14: `add_command(cmd)` is a pure append: the number of commands grows by
one, the commands appended before keep their index and content, the cursor,
the name and the hooks are unchanged, and the reference returned designates
the new last element, which is the descriptor `CommandStruct(cmd)`. -/
theorem Phase.add_command_appends (table : CommandTable) (p : Phase) (cmd : CommandName) :
    (p.add_command table cmd).2.m_command.size = p.m_command.size + 1 ∧
    (p.add_command table cmd).2.m_command.m_seq =
      p.m_command.m_seq ++ [CommandStruct.new table cmd] ∧
    (∀ i, i < p.m_command.size →
      (p.add_command table cmd).2.m_command.at i = p.m_command.at i) ∧
    (p.add_command table cmd).2.m_cmd_idx = p.m_cmd_idx ∧
    (p.add_command table cmd).2.m_name = p.m_name ∧
    (p.add_command table cmd).2.m_should_run = p.m_should_run ∧
    (p.add_command table cmd).2.m_is_done = p.m_is_done ∧
    (p.add_command table cmd).2.m_reset_func = p.m_reset_func ∧
    (p.add_command table cmd).1 + 1 = (p.add_command table cmd).2.m_command.size ∧
    (p.add_command table cmd).2.m_command.at (p.add_command table cmd).1 =
      .ok (CommandStruct.new table cmd) := by
  refine ⟨?_, rfl, ?_, rfl, rfl, rfl, rfl, rfl, ?_, ?_⟩
  · simp [Phase.add_command, CommandSequence.push_back, CommandSequence.size]
  · intro i hi
    have hi2 : i < p.m_command.m_seq.length := hi
    simp [Phase.add_command, CommandSequence.push_back, CommandSequence.at,
      List.getElem?_append_left hi2]
  · simp [Phase.add_command, CommandSequence.push_back, CommandSequence.size]
  · simp [Phase.add_command, CommandSequence.push_back, CommandSequence.at]

/-- C15: for every command code `cmd`, the descriptor `CommandStruct(cmd)` has
`command = cmd`, step number -1 with `last = false`, empty source and
destination state names, the undefined time-step function, no flags, empty
`reads`, `updates` and `writes`, and `only_internal = isCommandInternal(cmd)`. -/
theorem CommandStruct.new_defaults (table : CommandTable) (cmd : CommandName) :
    (CommandStruct.new table cmd).command = cmd ∧
    (CommandStruct.new table cmd).step.number = -1 ∧
    (CommandStruct.new table cmd).step.last = false ∧
    (CommandStruct.new table cmd).src = "" ∧
    (CommandStruct.new table cmd).dst = "" ∧
    (CommandStruct.new table cmd).dt = dt_operator_t.undefined_dt ∧
    (CommandStruct.new table cmd).flags = NO_FLAGS ∧
    (∀ i : Nat, (CommandStruct.new table cmd).flags.testBit i = false) ∧
    (CommandStruct.new table cmd).reads = [] ∧
    (CommandStruct.new table cmd).updates = [] ∧
    (CommandStruct.new table cmd).writes = [] ∧
    (CommandStruct.new table cmd).only_internal = isCommandInternal table cmd := by
  refine ⟨rfl, rfl, rfl, rfl, rfl, rfl, rfl, ?_, rfl, rfl, rfl, rfl⟩
  intro i
  exact Nat.zero_testBit i

/-- C16: each builder method of `CommandStruct` changes only its own field:
`reading`, `updating` and `writing` append the pair `(state, buffers)` at the
end of their own list, keeping the earlier entries and their order; `set_step`,
`set_src`, `set_dst` and `set_dt` replace only the field they name. -/
theorem CommandStruct.setters_change_own_field (c : CommandStruct) (state : String)
    (buffers : flag_t) (step_ : StepInfo) (name : String) (func : dt_operator_t) :
    c.reading state buffers = { c with reads := c.reads ++ [⟨state, buffers⟩] } ∧
    c.updating state buffers = { c with updates := c.updates ++ [⟨state, buffers⟩] } ∧
    c.writing state buffers = { c with writes := c.writes ++ [⟨state, buffers⟩] } ∧
    ((c.reading state buffers).reads.take c.reads.length = c.reads ∧
      (c.reading state buffers).reads.drop c.reads.length = [⟨state, buffers⟩] ∧
      (c.reading state buffers).updates = c.updates ∧
      (c.reading state buffers).writes = c.writes) ∧
    ((c.updating state buffers).updates.take c.updates.length = c.updates ∧
      (c.updating state buffers).updates.drop c.updates.length = [⟨state, buffers⟩] ∧
      (c.updating state buffers).reads = c.reads ∧
      (c.updating state buffers).writes = c.writes) ∧
    ((c.writing state buffers).writes.take c.writes.length = c.writes ∧
      (c.writing state buffers).writes.drop c.writes.length = [⟨state, buffers⟩] ∧
      (c.writing state buffers).reads = c.reads ∧
      (c.writing state buffers).updates = c.updates) ∧
    c.set_step step_ = { c with step := step_ } ∧
    c.set_src name = { c with src := name } ∧
    c.set_dst name = { c with dst := name } ∧
    c.set_dt func = { c with dt := func } := by
  refine ⟨rfl, rfl, rfl, ⟨?_, ?_, rfl, rfl⟩, ⟨?_, ?_, rfl, rfl⟩, ⟨?_, ?_, rfl, rfl⟩,
    rfl, rfl, rfl, rfl⟩ <;>
  simp [CommandStruct.reading, CommandStruct.updating, CommandStruct.writing]

/-- C19: the transition function `phase_after` maps the end of the predictor
to `POSTPRED_EFFPRES_PREP` when the effective-pressure solver is enabled and
to `CORRECTOR` otherwise. -/
theorem PredictorCorrector.phase_after_predictor_end (other : PhaseCode → PhaseCode) :
    PredictorCorrector.phase_after true other PhaseCode.PREDICTOR_END =
      PhaseCode.POSTPRED_EFFPRES_PREP ∧
    PredictorCorrector.phase_after false other PhaseCode.PREDICTOR_END =
      PhaseCode.CORRECTOR ∧
    PhaseCode.PREDICTOR_END.code = 7 ∧
    PhaseCode.POSTPRED_EFFPRES_PREP.code = 8 ∧
    PhaseCode.CORRECTOR.code = 10 :=
  ⟨rfl, rfl, rfl, rfl, rfl⟩

/-- C20: the base `we_are_done()` changes nothing: the integrator, with its
current-phase index and the cursor and command list of every phase, is the
same after the call, and so are the results of the following calls of
`next_command()`. -/
theorem Integrator.we_are_done_changes_nothing (fns : UserFunctions G) (I : Integrator G) :
    I.we_are_done = I ∧
    I.we_are_done.m_phase_idx = I.m_phase_idx ∧
    I.we_are_done.m_phase = I.m_phase ∧
    (∀ nv : Integrator G → Except Error Nat × Integrator G,
      Integrator.next_command fns nv I.we_are_done = Integrator.next_command fns nv I) ∧
    (∀ n : Nat,
      Integrator.run_commands fns n I.we_are_done = Integrator.run_commands fns n I) :=
  ⟨rfl, rfl, rfl, fun _ => rfl, fun _ => rfl⟩

end MoreClaims

/-! ## Flag words and the resolution of buffer declarations -/

theorem flag_testBit_of_ge (flag_bits : Nat) (x : flag_t) (hx : x < 2 ^ flag_bits) (i : Nat)
    (hi : flag_bits ≤ i) : x.testBit i = false :=
  Nat.testBit_lt_two_pow (Nat.lt_of_lt_of_le hx (Nat.pow_le_pow_right (by decide) hi))

theorem flag_not_testBit (flag_bits : Nat) (f : flag_t) (hf : f < 2 ^ flag_bits) (i : Nat) :
    (flag_not flag_bits f).testBit i = (decide (i < flag_bits) && !f.testBit i) := by
  have h : flag_not flag_bits f = 2 ^ flag_bits - (f + 1) := by
    unfold flag_not
    rw [Nat.mod_eq_of_lt hf, Nat.sub_sub, Nat.add_comm 1 f]
  rw [h, Nat.testBit_two_pow_sub_succ hf]

theorem flag_and_not_testBit (flag_bits : Nat) (old f : flag_t) (hold : old < 2 ^ flag_bits)
    (hf : f < 2 ^ flag_bits) (i : Nat) :
    (old &&& flag_not flag_bits f).testBit i = (old.testBit i && !f.testBit i) := by
  rw [Nat.testBit_and, flag_not_testBit flag_bits f hf]
  by_cases hi : i < flag_bits
  · simp [hi]
  · rw [flag_testBit_of_ge flag_bits old hold i (Nat.le_of_not_lt hi)]
    simp

/-- C17: on flag words of `flag_bits` bits, `set_flags(f)` yields `old OR f`,
so no bit set before is cleared, and `clear_flags(f)` yields `old AND NOT f`,
so exactly the bits of `f` are removed; `set_flags` is idempotent,
`clear_flags(f)` after `set_flags(f)` leaves no bit of `f` set, and
`set_flags(f)` after `clear_flags(f)` leaves every bit of `f` set. -/
theorem CommandStruct.set_clear_flags (flag_bits : Nat) (c : CommandStruct) (f : flag_t)
    (hold : c.flags < 2 ^ flag_bits) (hf : f < 2 ^ flag_bits) :
    (c.set_flags f).flags = c.flags ||| f ∧
    (∀ i, (c.set_flags f).flags.testBit i = (c.flags.testBit i || f.testBit i)) ∧
    (∀ i, (c.clear_flags flag_bits f).flags.testBit i = (c.flags.testBit i && !f.testBit i)) ∧
    (c.set_flags f).flags < 2 ^ flag_bits ∧
    (c.clear_flags flag_bits f).flags < 2 ^ flag_bits ∧
    (c.set_flags f).set_flags f = c.set_flags f ∧
    ((c.set_flags f).clear_flags flag_bits f).flags &&& f = 0 ∧
    ((c.clear_flags flag_bits f).set_flags f).flags &&& f = f ∧
    c.set_flags f = { c with flags := (c.set_flags f).flags } ∧
    c.clear_flags flag_bits f = { c with flags := (c.clear_flags flag_bits f).flags } := by
  have hset : (c.set_flags f).flags < 2 ^ flag_bits := Nat.or_lt_two_pow hold hf
  have hclr : ∀ i, (c.clear_flags flag_bits f).flags.testBit i =
      (c.flags.testBit i && !f.testBit i) :=
    fun i => flag_and_not_testBit flag_bits c.flags f hold hf i
  refine ⟨rfl, ?_, hclr, hset, ?_, ?_, ?_, ?_, rfl, rfl⟩
  · intro i
    exact Nat.testBit_or _ _ _
  · exact Nat.lt_of_le_of_lt Nat.and_le_left hold
  · show ({ c with flags := (c.flags ||| f) ||| f } : CommandStruct) =
      { c with flags := c.flags ||| f }
    have : (c.flags ||| f) ||| f = c.flags ||| f := by
      apply Nat.eq_of_testBit_eq
      intro i
      simp [Nat.testBit_or]
    rw [this]
  · apply Nat.eq_of_testBit_eq
    intro i
    rw [Nat.testBit_and]
    have := flag_and_not_testBit flag_bits (c.set_flags f).flags f hset hf i
    show (((c.set_flags f).flags &&& flag_not flag_bits f).testBit i && f.testBit i) = _
    rw [this]
    simp
  · apply Nat.eq_of_testBit_eq
    intro i
    show (((c.clear_flags flag_bits f).flags ||| f) &&& f).testBit i = _
    rw [Nat.testBit_and, Nat.testBit_or]
    cases f.testBit i <;> simp

theorem extractGeneralBufferList_ok (ps : ParticleSystem) :
    ∀ arg : CommandBufferArgument, (∀ sb ∈ arg, (ps.state sb.state).isSome = true) →
      ∃ l, extractGeneralBufferList ps arg = .ok l := by
  intro arg
  induction arg with
  | nil => intro _; exact ⟨0, rfl⟩
  | cons sb rest ih =>
    intro h
    obtain ⟨r, hr⟩ := ih (fun x hx => h x (List.mem_cons_of_mem _ hx))
    have hsb := h sb (List.mem_cons_self _ _)
    cases hst : ps.state sb.state with
    | none => rw [hst] at hsb; cases hsb
    | some present =>
      exact ⟨(sb.buffers &&& present) ||| r, by simp [extractGeneralBufferList, hst, hr]⟩

theorem extractExistingBufferList_absent (ps : ParticleSystem) (sb : StateBuffers)
    (h : names_absent_buffer ps sb) :
    extractExistingBufferList ps sb.state sb.buffers = .error BufferError.missing_buffer := by
  obtain ⟨present, hst, hne⟩ := h
  simp [extractExistingBufferList, hst, hne]

theorem extractExistingBufferList_of_state (ps : ParticleSystem) (sb : StateBuffers)
    (h : (ps.state sb.state).isSome = true) :
    extractExistingBufferList ps sb.state sb.buffers = .error BufferError.missing_buffer ∨
    ∃ l, extractExistingBufferList ps sb.state sb.buffers = .ok l := by
  cases hst : ps.state sb.state with
  | none => rw [hst] at h; cases h
  | some present =>
    by_cases hb : sb.buffers &&& present = sb.buffers
    · exact Or.inr ⟨sb.buffers, by simp [extractExistingBufferList, hst, hb]⟩
    · exact Or.inl (by simp [extractExistingBufferList, hst, hb])

theorem extractExistingBufferList_list_absent (ps : ParticleSystem) :
    ∀ arg : CommandBufferArgument, (∀ sb ∈ arg, (ps.state sb.state).isSome = true) →
      (∃ sb ∈ arg, names_absent_buffer ps sb) →
      extractExistingBufferList_CommandBufferArgument ps arg =
        .error BufferError.missing_buffer := by
  intro arg
  induction arg with
  | nil => intro _ h; obtain ⟨sb, hsb, _⟩ := h; cases hsb
  | cons sb rest ih =>
    intro hst hex
    unfold extractExistingBufferList_CommandBufferArgument
      extractExistingBufferList_StateBuffers
    rcases extractExistingBufferList_of_state ps sb (hst sb (List.mem_cons_self _ _)) with
      herr | ⟨l, hl⟩
    · rw [herr]
    · rw [hl]
      have hrest : ∃ x ∈ rest, names_absent_buffer ps x := by
        obtain ⟨x, hx, hxa⟩ := hex
        rcases List.mem_cons.mp hx with heq | hmem
        · subst heq
          rw [extractExistingBufferList_absent ps x hxa] at hl
          cases hl
        · exact ⟨x, hmem, hxa⟩
      rw [ih (fun x hx => hst x (List.mem_cons_of_mem _ hx)) hrest]

/-- C18: when a declaration names a buffer absent from the state it names,
which exists, resolving it as a read (`extractExistingBufferList`) fails with
the missing-buffer error and resolving it as a write
(`extractGeneralBufferList`) succeeds; the same holds for a list of
declarations whose states all exist and one of which names an absent buffer. -/
theorem extract_read_fails_write_succeeds (ps : ParticleSystem) (sb : StateBuffers)
    (h : names_absent_buffer ps sb) :
    extractExistingBufferList ps sb.state sb.buffers = .error BufferError.missing_buffer ∧
    extractExistingBufferList_StateBuffers ps sb = .error BufferError.missing_buffer ∧
    extractExistingBufferList_CommandBufferArgument ps [sb] =
      .error BufferError.missing_buffer ∧
    (∃ l, extractGeneralBufferList ps [sb] = .ok l) ∧
    (∀ (BUFFER_NONE : flag_t) (model : BufferList),
      ∃ l, extractGeneralBufferList_model BUFFER_NONE ps [sb] model = .ok l) ∧
    (∀ arg : CommandBufferArgument, sb ∈ arg →
      (∀ x ∈ arg, (ps.state x.state).isSome = true) →
      extractExistingBufferList_CommandBufferArgument ps arg =
        .error BufferError.missing_buffer ∧
      ∃ l, extractGeneralBufferList ps arg = .ok l) := by
  have hsome : (ps.state sb.state).isSome = true := by
    obtain ⟨present, hst, _⟩ := h
    rw [hst]; rfl
  have hall : ∀ x ∈ [sb], (ps.state x.state).isSome = true := by
    intro x hx
    rw [List.mem_singleton.mp hx]
    exact hsome
  refine ⟨extractExistingBufferList_absent ps sb h, extractExistingBufferList_absent ps sb h,
    extractExistingBufferList_list_absent ps [sb] hall ⟨sb, List.mem_singleton.mpr rfl, h⟩,
    extractGeneralBufferList_ok ps [sb] hall, ?_, ?_⟩
  · intro BUFFER_NONE model
    apply extractGeneralBufferList_ok
    intro x hx
    simp only [List.map_cons, List.map_nil, List.mem_singleton] at hx
    rw [hx]
    by_cases hb : sb.buffers = BUFFER_NONE
    · simpa [hb] using hsome
    · simpa [hb] using hsome
  · intro arg hmem hst
    exact ⟨extractExistingBufferList_list_absent ps arg hst ⟨sb, hmem, h⟩,
      extractGeneralBufferList_ok ps arg hst⟩

/-! ## Witnesses, continued -/

/-- C11 witness: the phase `A` with one command, after it returned it. -/
theorem Phase.next_command_exhausted_fails_witness :
    (example_phase "A" [0]).next_command.2.m_cmd_idx =
      (example_phase "A" [0]).next_command.2.m_command.size ∧
    (example_phase "A" [0]).next_command.2.next_command.1 = .error Error.out_of_range ∧
    (example_phase "A" [0]).next_command.2.next_command.2 =
      (example_phase "A" [0]).next_command.2 ∧
    (example_phase "A" [0]).next_command.2.next_command.2.m_cmd_idx = 1 :=
  ⟨by decide,
   (Phase.next_command_exhausted_fails (example_phase "A" [0]).next_command.2 (by decide)).1,
   (Phase.next_command_exhausted_fails (example_phase "A" [0]).next_command.2 (by decide)).2.1,
   (Phase.next_command_exhausted_fails (example_phase "A" [0]).next_command.2
      (by decide)).2.2.1⟩

/-- C12 witness: the phase `A` with two commands should run, at cursor 0 and at
cursor 2, with the flag set or not. -/
theorem Phase.default_should_run_iff_witness :
    (example_phase "A" [0, 1]).m_should_run = should_run_t.default_should_run ∧
    (example_phase "A" [0, 1]).should_run example_functions false = true ∧
    ({ example_phase "A" [0, 1] with m_cmd_idx := 2 } : Phase).should_run
      example_functions true = true ∧
    (Phase.new "B").should_run example_functions false = false :=
  ⟨by decide,
   (Phase.default_should_run_iff example_functions false (example_phase "A" [0, 1])
      (by decide)).1.mpr (by decide),
   ((Phase.default_should_run_iff example_functions false (example_phase "A" [0, 1])
      (by decide)).2.1 2 true).trans
     ((Phase.default_should_run_iff example_functions false (example_phase "A" [0, 1])
      (by decide)).1.mpr (by decide)),
   (Phase.default_should_run_iff example_functions false (example_phase "A" [0, 1])
      (by decide)).2.2.2 "B"⟩

/-- C13 witness: `example_started` is in phase 1, and the cursor of its phase 0
is 1; `start()` goes back to phase 0 and sets its cursor to 0. -/
theorem Integrator.start_enters_phase_zero_witness :
    example_started.m_phase[0]? = some example_phase_A1 ∧
    example_started.m_phase_idx = 1 ∧
    example_phase_A1.m_cmd_idx = 1 ∧
    (Integrator.start example_functions example_started).1 = .ok () ∧
    (Integrator.start example_functions example_started).2.m_phase_idx = 0 ∧
    (Integrator.start example_functions example_started).2.m_phase[0]? =
      some { example_phase_A1 with m_cmd_idx := 0 } ∧
    PredictorCorrector.start example_functions example_started =
      Integrator.start example_functions example_started :=
  ⟨by decide, by decide, by decide,
   (Integrator.start_enters_phase_zero example_functions example_started example_phase_A1
      (by decide)).1,
   (Integrator.start_enters_phase_zero example_functions example_started example_phase_A1
      (by decide)).2.1,
   (Integrator.start_enters_phase_zero example_functions example_started example_phase_A1
      (by decide)).2.2.2.1 (by decide),
   (Integrator.start_enters_phase_zero example_functions example_started example_phase_A1
      (by decide)).2.2.2.2.2.2.2.2⟩

/-- C14 witness: appending the command 2 to the phase `A` with the commands
`0, 1`. -/
theorem Phase.add_command_appends_witness :
    ((example_phase "A" [0, 1]).add_command example_table 2).2.m_command.size = 3 ∧
    ((example_phase "A" [0, 1]).add_command example_table 2).2.m_command.at 1 =
      .ok (CommandStruct.new example_table 1) ∧
    ((example_phase "A" [0, 1]).add_command example_table 2).1 = 2 ∧
    ((example_phase "A" [0, 1]).add_command example_table 2).2.m_command.at 2 =
      .ok (CommandStruct.new example_table 2) :=
  ⟨(Phase.add_command_appends example_table (example_phase "A" [0, 1]) 2).1,
   (Phase.add_command_appends example_table (example_phase "A" [0, 1]) 2).2.2.1 1 (by decide),
   by decide,
   (Phase.add_command_appends example_table (example_phase "A" [0, 1]) 2).2.2.2.2.2.2.2.2.2⟩

/-- C17 witness: on 8-bit flag words, with `old = 10` and `f = 6`. -/
theorem CommandStruct.set_clear_flags_witness :
    example_command.flags = 10 ∧
    example_command.flags < 2 ^ 8 ∧ (6 : flag_t) < 2 ^ 8 ∧
    (example_command.set_flags 6).flags = 14 ∧
    (example_command.clear_flags 8 6).flags = 8 ∧
    ((example_command.set_flags 6).clear_flags 8 6).flags &&& 6 = 0 ∧
    ((example_command.clear_flags 8 6).set_flags 6).flags &&& 6 = 6 :=
  ⟨by decide, by decide, by decide,
   (CommandStruct.set_clear_flags 8 example_command 6 (by decide) (by decide)).1,
   by decide,
   (CommandStruct.set_clear_flags 8 example_command 6 (by decide) (by decide)).2.2.2.2.2.2.1,
   (CommandStruct.set_clear_flags 8 example_command 6 (by decide)
      (by decide)).2.2.2.2.2.2.2.1⟩

/-- C18 witness: the state `step n` holds the buffers of keys 1 and 2, and the
declaration asks for the buffers of keys 1 and 4. -/
theorem extract_read_fails_write_succeeds_witness :
    names_absent_buffer example_particle_system example_declaration ∧
    extractExistingBufferList example_particle_system "step n" 5 =
      .error BufferError.missing_buffer ∧
    extractGeneralBufferList example_particle_system [example_declaration] = .ok 1 ∧
    ∃ l, extractGeneralBufferList example_particle_system [example_declaration] = .ok l :=
  ⟨⟨3, by decide, by decide⟩,
   (extract_read_fails_write_succeeds example_particle_system example_declaration
      ⟨3, by decide, by decide⟩).1,
   by decide,
   (extract_read_fails_write_succeeds example_particle_system example_declaration
      ⟨3, by decide, by decide⟩).2.2.2.1⟩

/-! ## The device list of the command line -/

theorem digitChar_isDigit (k : Nat) (h : k < 10) : (Nat.digitChar k).isDigit = true := by
  interval_cases k <;> decide

theorem digitChar_value (k : Nat) (h : k < 10) : (Nat.digitChar k).toNat - '0'.toNat = k := by
  interval_cases k <;> decide

theorem digits_value_append (xs : List Char) (d : Char) :
    digits_value (xs ++ [d]) = digits_value xs * 10 + (d.toNat - '0'.toNat) := by
  simp [digits_value, List.foldl_append]

theorem toDigitsCore_append (fuel : Nat) : ∀ (n : Nat) (ds : List Char),
    Nat.toDigitsCore 10 fuel n ds = Nat.toDigitsCore 10 fuel n [] ++ ds := by
  induction fuel with
  | zero => intro n ds; simp [Nat.toDigitsCore]
  | succ fuel ih =>
    intro n ds
    simp only [Nat.toDigitsCore]
    by_cases h : n / 10 = 0
    · simp [h]
    · simp only [h, if_false]
      rw [ih (n / 10) (Nat.digitChar (n % 10) :: ds), ih (n / 10) [Nat.digitChar (n % 10)]]
      simp

theorem toDigitsCore_digits (fuel : Nat) : ∀ n : Nat, n < fuel →
    (∀ c ∈ Nat.toDigitsCore 10 fuel n [], c.isDigit = true) ∧
    Nat.toDigitsCore 10 fuel n [] ≠ [] ∧
    digits_value (Nat.toDigitsCore 10 fuel n []) = n := by
  induction fuel with
  | zero => intro n h; omega
  | succ fuel ih =>
    intro n hn
    have hmod : n % 10 < 10 := Nat.mod_lt _ (by decide)
    simp only [Nat.toDigitsCore]
    by_cases h : n / 10 = 0
    · simp only [h, if_true]
      refine ⟨?_, by simp, ?_⟩
      · intro c hc
        rw [List.mem_singleton.mp hc]
        exact digitChar_isDigit _ hmod
      · have := digits_value_append [] (Nat.digitChar (n % 10))
        simp only [List.nil_append] at this
        rw [this, digitChar_value _ hmod]
        simp only [digits_value, List.foldl_nil]
        omega
    · simp only [h, if_false]
      have hlt : n / 10 < fuel := by omega
      obtain ⟨h1, _, h3⟩ := ih (n / 10) hlt
      rw [toDigitsCore_append fuel (n / 10) [Nat.digitChar (n % 10)]]
      refine ⟨?_, by simp, ?_⟩
      · intro c hc
        rcases List.mem_append.mp hc with hc | hc
        · exact h1 c hc
        · rw [List.mem_singleton.mp hc]
          exact digitChar_isDigit _ hmod
      · rw [digits_value_append, h3, digitChar_value _ hmod]
        omega

theorem decimal_digits (n : Nat) :
    (∀ c ∈ decimal n, c.isDigit = true) ∧ decimal n ≠ [] ∧ digits_value (decimal n) = n :=
  toDigitsCore_digits (n + 1) n (Nat.lt_succ_self n)

theorem isDigit_not_space(c : Char) (h : c.isDigit = true) : isspace c = false := by
  cases hs : isspace c with
  | false => rfl
  | true =>
    simp only [isspace, Bool.or_eq_true, beq_iff_eq] at hs
    rcases hs with ((((hs | hs) | hs) | hs) | hs) | hs <;> (subst hs; revert h; decide)

theorem isDigit_ne_comma (c : Char) (h : c.isDigit = true) : (c != ',') = true := by
  cases hs : (c != ',') with
  | true => rfl
  | false =>
    have : c = ',' := by simpa using hs
    subst this; revert h; decide

theorem sscanf_u_digit_token (t : List Char) (ht : digit_token t)
    (hv : digits_value t < 2 ^ 31) : sscanf_u t = some (digits_value t : Int) := by
  obtain ⟨hne, hd⟩ := ht
  cases t with
  | nil => exact absurd rfl hne
  | cons c cs =>
    have hc : c.isDigit = true := hd c (List.mem_cons_self _ _)
    have hsp : isspace c = false := isDigit_not_space c hc
    have hminus : c ≠ '-' := by intro h; subst h; revert hc; decide
    have hplus : c ≠ '+' := by intro h; subst h; revert hc; decide
    have htake : List.takeWhile Char.isDigit (c :: cs) = c :: cs :=
      List.takeWhile_eq_self_iff.mpr hd
    have hdrop : List.dropWhile isspace (c :: cs) = c :: cs := by
      simp [List.dropWhile, hsp]
    have hmod : digits_value (c :: cs) % 2 ^ 32 = digits_value (c :: cs) :=
      Nat.mod_eq_of_lt (by omega)
    have hsign : scan_sign (c :: cs) = (false, c :: cs) := by
      unfold scan_sign
      split
      · rename_i r heq
        exact absurd (List.cons.inj heq).1 hminus
      · rename_i r heq
        exact absurd (List.cons.inj heq).1 hplus
      · rfl
    unfold sscanf_u
    simp only [hdrop, hsign, htake, List.isEmpty_cons, Bool.false_eq_true, if_false, hmod]
    have hv2 : digits_value (c :: cs) < 2147483648 := by
      have e : (2 : Nat) ^ 31 = 2147483648 := by decide
      rw [← e]; exact hv
    simp [unsigned_to_int, hv2]

theorem getline_last (t : List Char) (ht : digit_token t) :
    getline t ',' = some (t, []) := by
  obtain ⟨hne, hd⟩ := ht
  have hall : ∀ c ∈ t, (c != ',') = true := fun c hc => isDigit_ne_comma c (hd c hc)
  cases t with
  | nil => exact absurd rfl hne
  | cons c cs =>
    simp only [getline]
    rw [List.takeWhile_eq_self_iff.mpr hall, List.dropWhile_eq_nil_iff.mpr hall]
    rfl

theorem getline_comma (t rest : List Char) (ht : digit_token t) :
    getline (t ++ ',' :: rest) ',' = some (t, rest) := by
  obtain ⟨hne, hd⟩ := ht
  have hall : ∀ c ∈ t, (c != ',') = true := fun c hc => isDigit_ne_comma c (hd c hc)
  cases t with
  | nil => exact absurd rfl hne
  | cons c cs =>
    show getline (c :: (cs ++ ',' :: rest)) ',' = _
    simp only [getline]
    have e : c :: (cs ++ ',' :: rest) = (c :: cs) ++ ',' :: rest := rfl
    rw [e, List.takeWhile_append_of_pos hall, List.dropWhile_append_of_pos hall]
    simp [List.takeWhile, List.dropWhile]

theorem parse_devices_loop_tokens : ∀ (ts : List (List Char)) (fuel : Nat) (ret : List Int),
    ts.length ≤ fuel → (∀ t ∈ ts, digit_token t ∧ digits_value t < 2 ^ 31) →
    parse_devices_loop fuel (join_commas ts) ret =
      .ok (ret ++ ts.map (fun t => (digits_value t : Int))) := by
  intro ts
  induction ts with
  | nil =>
    intro fuel ret _ _
    cases fuel <;> simp [parse_devices_loop, join_commas, getline]
  | cons t rest ih =>
    intro fuel ret hlen hgood
    obtain ⟨ht, hv⟩ := hgood t (List.mem_cons_self _ _)
    have hrest : ∀ u ∈ rest, digit_token u ∧ digits_value u < 2 ^ 31 :=
      fun u hu => hgood u (List.mem_cons_of_mem _ hu)
    cases fuel with
    | zero => simp at hlen
    | succ fuel =>
      have hlen2 : rest.length ≤ fuel := by simpa using hlen
      cases rest with
      | nil =>
        simp only [parse_devices_loop, join_commas, getline_last t ht,
          sscanf_u_digit_token t ht hv]
        have := ih fuel (ret ++ [(digits_value t : Int)]) hlen2 hrest
        simp only [join_commas] at this
        rw [this]
        simp
      | cons u rest2 =>
        simp only [parse_devices_loop, join_commas, getline_comma t _ ht,
          sscanf_u_digit_token t ht hv]
        rw [ih fuel (ret ++ [(digits_value t : Int)]) hlen2 hrest]
        simp

theorem join_commas_length : ∀ ts : List (List Char), (∀ t ∈ ts, t ≠ []) →
    ts.length ≤ (join_commas ts).length + 1 := by
  intro ts
  induction ts with
  | nil => intro _; simp
  | cons t rest ih =>
    intro h
    have ht : 0 < t.length := List.length_pos.mpr (h t (List.mem_cons_self _ _))
    have hr := ih (fun u hu => h u (List.mem_cons_of_mem _ hu))
    cases rest with
    | nil => simp [join_commas]
    | cons u rest2 =>
      simp only [join_commas, List.length_append, List.length_cons] at hr ⊢
      omega

/-- C22: for every list (in particular every non-empty list) of device numbers
in `[0, 2^31)`, `parse_devices_string` applied to their decimal renderings
joined by commas returns that list, in the same order and with duplicates
kept. -/
theorem parse_devices_string_decimal (devices : List Nat)
    (h : ∀ d ∈ devices, d < 2 ^ 31) :
    parse_devices_string (join_commas (devices.map decimal)) =
      .ok (devices.map Int.ofNat) := by
  have hgood : ∀ t ∈ devices.map decimal, digit_token t ∧ digits_value t < 2 ^ 31 := by
    intro t ht
    obtain ⟨d, hd, rfl⟩ := List.mem_map.mp ht
    obtain ⟨h1, h2, h3⟩ := decimal_digits d
    exact ⟨⟨h2, h1⟩, by rw [h3]; exact h d hd⟩
  have hlen := join_commas_length (devices.map decimal) (fun t ht => (hgood t ht).1.1)
  unfold parse_devices_string
  rw [parse_devices_loop_tokens (devices.map decimal) _ [] hlen hgood]
  simp only [List.nil_append, List.map_map]
  congr 1
  apply List.map_congr_left
  intro d _
  simp only [Function.comp, (decimal_digits d).2.2]
  rfl

/-- C21: the code at inputs with a token that is not an unsigned decimal
integer: `parse_devices_string` does not throw on `0,3x` and returns the list
`0, 3`, and it returns `-1` on `-1`; it throws on `0,x3`. -/
theorem parse_devices_string_accepts_prefix :
    parse_devices_string "0,3x".data = .ok [0, 3] ∧
    parse_devices_string "-1".data = .ok [-1] ∧
    parse_devices_string "0,x3".data = .error ⟨"token x3 is not a number"⟩ := by
  decide

/-! ## Options and buffer names -/

/-- C23: `Options::get<bool>` returns the default when the key is absent from
the option map; when the key is present it returns true for the stored values
`yes`, `true`, `1`, false for `no`, `false`, `0`, and throws
`invalid_argument` for every other stored value, such as `True`: it never
falls back to the default. -/
theorem Options.get_bool_values (o : Options) (key : String) (deflt : Bool) :
    (o.m_options.lookup key = none → o.get_bool key deflt = .ok deflt) ∧
    (∀ value : String, o.m_options.lookup key = some value →
      (value ∈ ["yes", "true", "1"] → o.get_bool key deflt = .ok true) ∧
      (value ∈ ["no", "false", "0"] → o.get_bool key deflt = .ok false) ∧
      (value ∉ ["yes", "true", "1"] → value ∉ ["no", "false", "0"] →
        o.get_bool key deflt =
          .error ⟨"invalid boolean value \x27" ++ value ++ "\x27 for key \x27" ++ key ++
            "\x27"⟩) ∧
      (value = "True" → ∃ e, o.get_bool key deflt = .error e)) := by
  have hfalse_not_true : ∀ v : String, v ∈ ["no", "false", "0"] → is_true_value v = false := by
    intro v hv
    simp only [List.mem_cons, List.mem_singleton, List.not_mem_nil, or_false] at hv
    rcases hv with h | h | h <;> (subst h; decide)
  have herr : ∀ value : String, o.m_options.lookup key = some value →
      value ∉ ["yes", "true", "1"] → value ∉ ["no", "false", "0"] →
      o.get_bool key deflt =
        .error ⟨"invalid boolean value \x27" ++ value ++ "\x27 for key \x27" ++ key ++
          "\x27"⟩ := by
    intro value hv ht hf
    have h1 : is_true_value value = false := by
      simpa [is_true_value, true_values] using ht
    have h2 : is_false_value value = false := by
      simpa [is_false_value, false_values] using hf
    simp [Options.get_bool, hv, h1, h2]
  refine ⟨?_, ?_⟩
  · intro h
    simp [Options.get_bool, h]
  · intro value hv
    refine ⟨?_, ?_, herr value hv, ?_⟩
    · intro ht
      have h1 : is_true_value value = true := by
        simpa [is_true_value, true_values] using ht
      simp [Options.get_bool, hv, h1]
    · intro hf
      have h2 : is_false_value value = true := by
        simpa [is_false_value, false_values] using hf
      simp [Options.get_bool, hv, hfalse_not_true value hf, h2]
    · intro h
      subst h
      exact ⟨_, herr "True" hv (by decide) (by decide)⟩

/-- C24: `Options::get<string>` returns the value stored in the option map when
the key is present; otherwise the `dem` field when the key is `dem` and that
field is not empty; otherwise the default.  An entry `dem` of the map comes
before the `dem` field. -/
theorem Options.get_string_precedence (o : Options) (key : String) (deflt : String) :
    (∀ value : String, o.m_options.lookup key = some value →
      o.get_string key deflt = value) ∧
    (o.m_options.lookup key = none → key = "dem" → o.dem.isEmpty = false →
      o.get_string key deflt = o.dem) ∧
    (o.m_options.lookup key = none → key ≠ "dem" → o.get_string key deflt = deflt) ∧
    (o.m_options.lookup key = none → o.dem.isEmpty = true → o.get_string key deflt = deflt) ∧
    (∀ value : String, o.m_options.lookup "dem" = some value →
      o.get_string "dem" deflt = value) := by
  refine ⟨?_, ?_, ?_, ?_, ?_⟩
  · intro value hv
    simp [Options.get_string, hv]
  · intro hn hk hd
    subst hk
    simp [Options.get_string, hn, hd]
  · intro hn hk
    simp [Options.get_string, hn, hk]
  · intro hn hd
    simp [Options.get_string, hn, hd]
  · intro value hv
    simp [Options.get_string, hv]

theorem lookup_of_mem_nodup {β : Type} : ∀ (l : List (flag_t × β)) (k : flag_t) (v : β),
    (l.map Prod.fst).Nodup → (k, v) ∈ l → l.lookup k = some v := by
  intro l
  induction l with
  | nil => intro k v _ h; cases h
  | cons kv rest ih =>
    intro k v hnd hmem
    obtain ⟨k0, v0⟩ := kv
    simp only [List.map_cons, List.nodup_cons] at hnd
    rcases List.mem_cons.mp hmem with heq | hin
    · cases heq
      simp [List.lookup_cons]
    · have hne : k ≠ k0 := by
        intro h
        subst h
        exact hnd.1 (List.mem_map.mpr ⟨(k, v), hin, rfl⟩)
      have hb : (k == k0) = false := beq_false_of_ne hne
      simp only [List.lookup_cons, hb]
      exact ih k v hnd.2 hin

theorem lookup_none_of_not_key {β : Type} (l : List (flag_t × β)) (k : flag_t)
    (h : ∀ kv ∈ l, kv.1 ≠ k) : l.lookup k = none := by
  rw [List.lookup_eq_none_iff]
  intro p hp
  exact bne_iff_ne.mpr (fun e => h p hp e.symm)

theorem two_pow_ne_of_two_bits (x i j : Nat) (hij : i ≠ j) (hi : x.testBit i = true)
    (hj : x.testBit j = true) (n : Nat) : x ≠ 2 ^ n := by
  intro h
  subst h
  rw [Nat.testBit_two_pow] at hi hj
  have h1 : n = i := of_decide_eq_true hi
  have h2 : n = j := of_decide_eq_true hj
  exact hij (h1.symm.trans h2)

/-- C25: `getBufferName(key)` returns the name registered for `key` when `key`
is one of the defined buffer keys, and throws `invalid_argument` for every
other key; the buffer keys being single bits, these include 0 and every union
of two or more buffer keys. -/
theorem getBufferName_defined_keys (buffers : List (flag_t × String))
    (hdistinct : (buffers.map Prod.fst).Nodup)
    (hbits : ∀ kn ∈ buffers, ∃ i : Nat, kn.1 = 2 ^ i) :
    (∀ (key : flag_t) (name : String), (key, name) ∈ buffers →
      getBufferName buffers key = .ok name) ∧
    (∀ key : flag_t, (∀ kn ∈ buffers, kn.1 ≠ key) →
      getBufferName buffers key = .error ⟨"unknown Buffer key " ++ toString key⟩) ∧
    getBufferName buffers 0 = .error ⟨"unknown Buffer key " ++ toString (0 : flag_t)⟩ ∧
    (∀ (k1 k2 more : flag_t), k1 ∈ buffers.map Prod.fst → k2 ∈ buffers.map Prod.fst →
      k1 ≠ k2 →
      getBufferName buffers (k1 ||| k2 ||| more) =
        .error ⟨"unknown Buffer key " ++ toString (k1 ||| k2 ||| more)⟩) := by
  have hnone : ∀ key : flag_t, (∀ kn ∈ buffers, kn.1 ≠ key) →
      getBufferName buffers key = .error ⟨"unknown Buffer key " ++ toString key⟩ := by
    intro key h
    simp [getBufferName, lookup_none_of_not_key buffers key h]
  refine ⟨?_, hnone, ?_, ?_⟩
  · intro key name hmem
    simp [getBufferName, lookup_of_mem_nodup buffers key name hdistinct hmem]
  · apply hnone
    intro kn hkn h0
    obtain ⟨i, hi⟩ := hbits kn hkn
    rw [hi] at h0
    exact absurd h0 (Nat.pos_iff_ne_zero.mp (Nat.two_pow_pos i))
  · intro k1 k2 more hk1 hk2 hne
    apply hnone
    intro kn hkn heq
    obtain ⟨n, hn⟩ := hbits kn hkn
    obtain ⟨kn1, hkn1, e1⟩ := List.mem_map.mp hk1
    obtain ⟨kn2, hkn2, e2⟩ := List.mem_map.mp hk2
    obtain ⟨i, hi⟩ := hbits kn1 hkn1
    obtain ⟨j, hj⟩ := hbits kn2 hkn2
    rw [e1] at hi
    rw [e2] at hj
    have hij : i ≠ j := by
      intro h
      apply hne
      rw [hi, hj, h]
    have hbi : (k1 ||| k2 ||| more).testBit i = true := by
      simp [Nat.testBit_or, hi, Nat.testBit_two_pow]
    have hbj : (k1 ||| k2 ||| more).testBit j = true := by
      simp [Nat.testBit_or, hj, Nat.testBit_two_pow]
    exact two_pow_ne_of_two_bits _ i j hij hbi hbj n (heq.symm.trans hn)

/-! ## Simulation flags -/

theorem and_eq_iff_bits (field flags : flag_t) :
    field &&& flags = flags ↔ ∀ i, flags.testBit i = true → field.testBit i = true := by
  constructor
  · intro h i hi
    have : (field &&& flags).testBit i = true := by rw [h]; exact hi
    rw [Nat.testBit_and] at this
    exact (Bool.and_eq_true _ _ ▸ this).1
  · intro h
    apply Nat.eq_of_testBit_eq
    intro i
    rw [Nat.testBit_and]
    cases hf : flags.testBit i with
    | false => simp
    | true => simp [h i hf]

theorem and_ne_zero_iff_bits (field flags : flag_t) :
    field &&& flags ≠ 0 ↔ ∃ i, flags.testBit i = true ∧ field.testBit i = true := by
  constructor
  · intro h
    obtain ⟨i, hi⟩ := Nat.ne_zero_implies_bit_true h
    rw [Nat.testBit_and] at hi
    have := (Bool.and_eq_true _ _ ▸ hi)
    exact ⟨i, this.2, this.1⟩
  · rintro ⟨i, h1, h2⟩ h0
    have : (field &&& flags).testBit i = true := by
      rw [Nat.testBit_and, h1, h2]; rfl
    rw [h0, Nat.zero_testBit] at this
    cases this

/-- C26: `QUERY_ALL_FLAGS(field, flags)` is true if and only if every bit set
in `flags` is set in `field`, and `QUERY_ANY_FLAGS(field, flags)` is non-zero
if and only if some bit set in `flags` is set in `field`; for
`flags = ENABLE_NONE` the first is true and the second is zero, and for
non-zero `flags` the first implies the second. -/
theorem query_flags_bits (field flags : flag_t) :
    (QUERY_ALL_FLAGS field flags = true ↔
      ∀ i, flags.testBit i = true → field.testBit i = true) ∧
    (QUERY_ANY_FLAGS field flags ≠ 0 ↔
      ∃ i, flags.testBit i = true ∧ field.testBit i = true) ∧
    QUERY_ALL_FLAGS field ENABLE_NONE = true ∧
    QUERY_ANY_FLAGS field ENABLE_NONE = 0 ∧
    (flags ≠ 0 → QUERY_ALL_FLAGS field flags = true → QUERY_ANY_FLAGS field flags ≠ 0) := by
  have hall : QUERY_ALL_FLAGS field flags = true ↔ field &&& flags = flags := by
    simp [QUERY_ALL_FLAGS]
  refine ⟨hall.trans (and_eq_iff_bits field flags), and_ne_zero_iff_bits field flags, ?_, ?_, ?_⟩
  · simp [QUERY_ALL_FLAGS, ENABLE_NONE]
  · simp [QUERY_ANY_FLAGS, ENABLE_NONE]
  · intro hne h
    have : field &&& flags = flags := hall.mp h
    show field &&& flags ≠ 0
    rw [this]
    exact hne

theorem flag_union_le_all : ∀ fs : List flag_t, (∀ x ∈ fs, x ∈ simulation_flags) →
    flag_union fs &&& 4095 = flag_union fs := by
  intro fs
  induction fs with
  | nil => intro _; rfl
  | cons x rest ih =>
    intro h
    have hx : x &&& 4095 = x := by
      have := h x (List.mem_cons_self _ _)
      simp only [simulation_flags, List.mem_cons, List.mem_singleton, List.not_mem_nil,
        or_false] at this
      rcases this with h | h | h | h | h | h | h | h | h | h | h | h <;> (subst h; decide)
    have hr := ih (fun y hy => h y (List.mem_cons_of_mem _ hy))
    show (x ||| flag_union rest) &&& 4095 = x ||| flag_union rest
    apply Nat.eq_of_testBit_eq
    intro i
    have e1 := congrArg (fun n => Nat.testBit n i) hx
    have e2 := congrArg (fun n => Nat.testBit n i) hr
    simp only [Nat.testBit_and] at e1 e2
    rw [Nat.testBit_and, Nat.testBit_or]
    revert e1 e2
    cases Nat.testBit x i <;> cases Nat.testBit (flag_union rest) i <;>
      cases Nat.testBit 4095 i <;> simp

/-- C27: the twelve simulation flags `ENABLE_DTADAPT` .. `ENABLE_MULTIFLUID` are
the twelve distinct single bits `2^0` .. `2^11` in the order of their
definition, `ENABLE_ALL_SIMFLAGS` is their union, 4095, and
`QUERY_ALL_FLAGS(ENABLE_ALL_SIMFLAGS, f)` holds for every union `f` of defined
flags. -/
theorem simulation_flags_bits :
    simulation_flags = (List.range 12).map (fun i => 2 ^ i) ∧
    simulation_flags.Nodup ∧
    simulation_flags.length = 12 ∧
    LAST_SIMFLAG = 2 ^ 11 ∧
    ENABLE_ALL_SIMFLAGS = 4095 ∧
    ENABLE_ALL_SIMFLAGS = flag_union simulation_flags ∧
    (∀ fs : List flag_t, (∀ x ∈ fs, x ∈ simulation_flags) →
      QUERY_ALL_FLAGS ENABLE_ALL_SIMFLAGS (flag_union fs) = true) := by
  refine ⟨by decide, by decide, by decide, by decide, by decide, by decide, ?_⟩
  intro fs h
  have hall : ENABLE_ALL_SIMFLAGS = 4095 := by decide
  have := flag_union_le_all fs h
  simp only [QUERY_ALL_FLAGS, hall, beq_iff_eq]
  rw [Nat.land_comm]
  exact this

/-- C28: on flag words of `flag_bits` bits, `DISABLE_FLAGS(field, flags)` has no
bit of `flags` set and agrees with `field` on every bit outside `flags`; it is
idempotent, and `QUERY_ANY_FLAGS(DISABLE_FLAGS(field, flags), flags)` is
zero. -/
theorem disable_flags_bits (flag_bits : Nat) (field flags : flag_t)
    (hfield : field < 2 ^ flag_bits) (hflags : flags < 2 ^ flag_bits) :
    (∀ i, flags.testBit i = true → (DISABLE_FLAGS flag_bits field flags).testBit i = false) ∧
    (∀ i, flags.testBit i = false →
      (DISABLE_FLAGS flag_bits field flags).testBit i = field.testBit i) ∧
    DISABLE_FLAGS flag_bits field flags < 2 ^ flag_bits ∧
    DISABLE_FLAGS flag_bits (DISABLE_FLAGS flag_bits field flags) flags =
      DISABLE_FLAGS flag_bits field flags ∧
    QUERY_ANY_FLAGS (DISABLE_FLAGS flag_bits field flags) flags = 0 := by
  have hbit : ∀ i, (DISABLE_FLAGS flag_bits field flags).testBit i =
      (field.testBit i && !flags.testBit i) :=
    fun i => flag_and_not_testBit flag_bits field flags hfield hflags i
  have hlt : DISABLE_FLAGS flag_bits field flags < 2 ^ flag_bits :=
    Nat.lt_of_le_of_lt Nat.and_le_left hfield
  refine ⟨?_, ?_, hlt, ?_, ?_⟩
  · intro i hi
    rw [hbit, hi]; simp
  · intro i hi
    rw [hbit, hi]; simp
  · apply Nat.eq_of_testBit_eq
    intro i
    have := flag_and_not_testBit flag_bits (DISABLE_FLAGS flag_bits field flags) flags hlt
      hflags i
    show ((DISABLE_FLAGS flag_bits field flags) &&& flag_not flag_bits flags).testBit i = _
    rw [this, hbit]
    cases field.testBit i <;> cases flags.testBit i <;> rfl
  · apply Nat.eq_of_testBit_eq
    intro i
    show ((DISABLE_FLAGS flag_bits field flags) &&& flags).testBit i = _
    rw [Nat.testBit_and, hbit, Nat.zero_testBit]
    cases field.testBit i <;> cases flags.testBit i <;> rfl

/-! ## The end of the phase list and exhausted phases -/

section LastPhase

variable {G : Type}

theorem set_self_of_getElem {α : Type} (l : List α) (i : Nat) (a : α) (h : l[i]? = some a) :
    l.set i a = l := by
  apply List.ext_getElem?
  intro j
  rw [List.getElem?_set]
  by_cases hij : i = j
  · subst hij
    simp [h, (List.getElem?_eq_some.mp h).1]
  · simp [hij]

theorem Integrator.run_commands_stuck (fns : UserFunctions G) (I : Integrator G) (e : Error)
    (h : Integrator.next_command fns (Integrator.next_phase fns) I = (.error e, I)) :
    ∀ n : Nat, Integrator.run_commands fns n I = (List.replicate n (.error e), I) := by
  intro n
  induction n with
  | zero => rfl
  | succ n ih => simp [Integrator.run_commands, h, ih, List.replicate_succ]

/-- C29: the base engine does not wrap around: when the last phase of a base
integrator reports done, `next_phase()` fails with `out_of_range` and
`next_command()` returns that error and no command; the integrator stays in
its last phase and every later call fails in the same way. -/
theorem Integrator.next_command_after_last_phase (fns : UserFunctions G) (I : Integrator G)
    (p : Phase) (hp : I.m_phase[I.m_phase_idx]? = some p) (hd : p.done fns I.gdata = true)
    (hlast : I.m_phase_idx + 1 = I.m_phase.length) :
    (Integrator.next_phase fns I).1 = .error Error.out_of_range ∧
    (Integrator.next_command fns (Integrator.next_phase fns) I).1 =
      .error Error.out_of_range ∧
    (Integrator.next_command fns (Integrator.next_phase fns) I).2 = I ∧
    (∀ n : Nat,
      (Integrator.run_commands fns n I).1 = List.replicate n (.error Error.out_of_range) ∧
      (Integrator.run_commands fns n I).2.m_phase_idx = I.m_phase_idx) := by
  have hnone : I.m_phase[I.m_phase_idx + 1]? = none :=
    List.getElem?_eq_none (Nat.le_of_eq hlast.symm)
  have hnext : Integrator.next_phase fns I = (.error Error.out_of_range, I) := by
    simp [Integrator.next_phase, Integrator.enter_phase, hnone]
  have hcmd : Integrator.next_command fns (Integrator.next_phase fns) I =
      (.error Error.out_of_range, I) := by
    rw [Integrator.next_command_done fns _ I p hp hd, hnext]
  refine ⟨by rw [hnext], by rw [hcmd], by rw [hcmd], ?_⟩
  intro n
  rw [Integrator.run_commands_stuck fns I _ hcmd n]
  exact ⟨rfl, rfl⟩

/-- C30: when the `is_done` predicate of the current phase reports false while
its cursor has reached its number of commands, `next_command` (whatever the
`next_phase()` override) does not restart the phase: it calls the
`next_command` of the exhausted phase, which fails with `out_of_range`, and
the integrator is left as it was.  Such a predicate is not the default one. -/
theorem Integrator.next_command_exhausted_not_done (fns : UserFunctions G)
    (nv : Integrator G → Except Error Nat × Integrator G) (I : Integrator G) (p : Phase)
    (hp : I.m_phase[I.m_phase_idx]? = some p) (hd : p.done fns I.gdata = false)
    (hex : p.m_cmd_idx = p.m_command.size) :
    p.next_command = (.error Error.out_of_range, p) ∧
    (Integrator.next_command fns nv I).1 = .error Error.out_of_range ∧
    (Integrator.next_command fns nv I).2 = I ∧
    (Integrator.next_command fns nv I).2.m_phase[I.m_phase_idx]? = some p ∧
    p.m_is_done ≠ should_run_t.default_is_done := by
  have hge : p.m_command.size ≤ p.m_cmd_idx := Nat.le_of_eq hex.symm
  have hnc := Phase.next_command_of_ge p hge
  have hcmd : Integrator.next_command fns nv I = (.error Error.out_of_range, I) := by
    rw [Integrator.next_command_not_done fns nv I p hp hd, hnc]
    simp only [set_self_of_getElem I.m_phase I.m_phase_idx p hp]
  refine ⟨hnc, by rw [hcmd], by rw [hcmd], by rw [hcmd]; exact hp, ?_⟩
  intro hdef
  have := (Phase.default_done_iff fns I.gdata p hdef).mpr hex
  rw [hd] at this
  cases this

end LastPhase

/-! ## Witnesses for the options, the flags and the last phase -/

/-- C22 witness: the devices `0, 12, 0`, whose renderings joined by commas are
`0,12,0`. -/
theorem parse_devices_string_decimal_witness :
    (∀ d ∈ [0, 12, 0], d < 2 ^ 31) ∧
    join_commas ([0, 12, 0].map decimal) = "0,12,0".data ∧
    parse_devices_string (join_commas ([0, 12, 0].map decimal)) = .ok [0, 12, 0] :=
  ⟨by decide, by decide, parse_devices_string_decimal [0, 12, 0] (by decide)⟩

/-- C23 witness: in `example_options` the key `verbose` holds `yes`, `striping`
holds `0`, `debug` holds `True` and `missing` is absent. -/
theorem Options.get_bool_values_witness :
    example_options.get_bool "verbose" false = .ok true ∧
    example_options.get_bool "striping" true = .ok false ∧
    (∃ e, example_options.get_bool "debug" true = .error e) ∧
    example_options.get_bool "missing" true = .ok true :=
  ⟨((Options.get_bool_values example_options "verbose" false).2 "yes" (by decide)).1
     (by decide),
   ((Options.get_bool_values example_options "striping" true).2 "0" (by decide)).2.1
     (by decide),
   ((Options.get_bool_values example_options "debug" true).2 "True" (by decide)).2.2.2 rfl,
   (Options.get_bool_values example_options "missing" true).1 (by decide)⟩

/-- C24 witness: the entry `dem` of the map of `example_options` comes before
its `dem` field, which is returned when the map has no such entry. -/
theorem Options.get_string_precedence_witness :
    example_options.dem = "b.dem" ∧
    example_options.get_string "dem" "none" = "a.dem" ∧
    ({ m_options := [], dem := "b.dem" } : Options).get_string "dem" "none" = "b.dem" ∧
    ({ m_options := [], dem := "" } : Options).get_string "dem" "none" = "none" ∧
    example_options.get_string "missing" "none" = "none" :=
  ⟨by decide,
   (Options.get_string_precedence example_options "dem" "none").1 "a.dem" (by decide),
   (Options.get_string_precedence { m_options := [], dem := "b.dem" } "dem" "none").2.1
     (by decide) rfl (by decide),
   (Options.get_string_precedence { m_options := [], dem := "" } "dem" "none").2.2.2.1
     (by decide) (by decide),
   (Options.get_string_precedence example_options "missing" "none").2.2.1
     (by decide) (by decide)⟩

/-- C25 witness: the table `example_buffers`, with the keys 1, 2 and 4. -/
theorem getBufferName_defined_keys_witness :
    (example_buffers.map Prod.fst).Nodup ∧
    (∀ kn ∈ example_buffers, ∃ i : Nat, kn.1 = 2 ^ i) ∧
    getBufferName example_buffers 2 = .ok "Velocity" ∧
    (∃ e, getBufferName example_buffers 0 = .error e) ∧
    (∃ e, getBufferName example_buffers 3 = .error e) :=
  have hbits : ∀ kn ∈ example_buffers, ∃ i : Nat, kn.1 = 2 ^ i := by
    intro kn h
    simp only [example_buffers, List.mem_cons, List.mem_singleton, List.not_mem_nil,
      or_false] at h
    rcases h with h | h | h
    · exact ⟨0, by rw [h]; rfl⟩
    · exact ⟨1, by rw [h]; rfl⟩
    · exact ⟨2, by rw [h]; rfl⟩
  ⟨by decide, hbits,
   (getBufferName_defined_keys example_buffers (by decide) hbits).1 2 "Velocity" (by decide),
   ⟨_, (getBufferName_defined_keys example_buffers (by decide) hbits).2.2.1⟩,
   ⟨_, (getBufferName_defined_keys example_buffers (by decide) hbits).2.2.2 1 2 0
     (by decide) (by decide) (by decide)⟩⟩

/-- C26 witness: the field `ENABLE_DTADAPT | ENABLE_PLANES` has `ENABLE_PLANES`
set and not all of `ENABLE_PLANES | ENABLE_XSPH`. -/
theorem query_flags_bits_witness :
    QUERY_ALL_FLAGS 5 ENABLE_PLANES = true ∧
    QUERY_ANY_FLAGS 5 ENABLE_PLANES ≠ 0 ∧
    QUERY_ALL_FLAGS 5 6 = false ∧
    QUERY_ANY_FLAGS 5 6 ≠ 0 ∧
    QUERY_ALL_FLAGS 5 ENABLE_NONE = true ∧
    QUERY_ANY_FLAGS 5 ENABLE_NONE = 0 :=
  ⟨by decide,
   (query_flags_bits 5 ENABLE_PLANES).2.2.2.2 (by decide) (by decide),
   by decide,
   (query_flags_bits 5 6).2.1.mpr ⟨2, by decide, by decide⟩,
   (query_flags_bits 5 ENABLE_NONE).2.2.1,
   (query_flags_bits 5 ENABLE_NONE).2.2.2.1⟩

/-- C27 witness: the union of `ENABLE_XSPH` and `ENABLE_DEM`. -/
theorem simulation_flags_bits_witness :
    flag_union [ENABLE_XSPH, ENABLE_DEM] = 10 ∧
    QUERY_ALL_FLAGS ENABLE_ALL_SIMFLAGS (flag_union [ENABLE_XSPH, ENABLE_DEM]) = true :=
  ⟨by decide, simulation_flags_bits.2.2.2.2.2.2 [ENABLE_XSPH, ENABLE_DEM] (by decide)⟩

/-- C28 witness: on 8-bit flag words, disabling the flags 5 in the field 13
leaves 8. -/
theorem disable_flags_bits_witness :
    (13 : flag_t) < 2 ^ 8 ∧ (5 : flag_t) < 2 ^ 8 ∧
    DISABLE_FLAGS 8 13 5 = 8 ∧
    DISABLE_FLAGS 8 (DISABLE_FLAGS 8 13 5) 5 = DISABLE_FLAGS 8 13 5 ∧
    QUERY_ANY_FLAGS (DISABLE_FLAGS 8 13 5) 5 = 0 :=
  ⟨by decide, by decide, by decide,
   (disable_flags_bits 8 13 5 (by decide) (by decide)).2.2.2.1,
   (disable_flags_bits 8 13 5 (by decide) (by decide)).2.2.2.2⟩

/-- C29 witness: `example_last_phase` has one phase, which reports done. -/
theorem Integrator.next_command_after_last_phase_witness :
    example_last_phase.m_phase[example_last_phase.m_phase_idx]? = some example_phase_A1 ∧
    example_phase_A1.done example_functions example_last_phase.gdata = true ∧
    example_last_phase.m_phase_idx + 1 = example_last_phase.m_phase.length ∧
    (Integrator.next_command example_functions (Integrator.next_phase example_functions)
      example_last_phase).1 = .error Error.out_of_range ∧
    (Integrator.run_commands example_functions 3 example_last_phase).1 =
      [.error Error.out_of_range, .error Error.out_of_range, .error Error.out_of_range] :=
  ⟨by decide, by decide, by decide,
   (Integrator.next_command_after_last_phase example_functions example_last_phase
      example_phase_A1 (by decide) (by decide) (by decide)).2.1,
   ((Integrator.next_command_after_last_phase example_functions example_last_phase
      example_phase_A1 (by decide) (by decide) (by decide)).2.2.2 3).1⟩

/-- C30 witness: the phase of `example_exhausted` has returned its only
command and its `is_done` predicate never holds. -/
theorem Integrator.next_command_exhausted_not_done_witness :
    example_exhausted.m_phase[example_exhausted.m_phase_idx]? =
      some ((example_phase "P" [0]).is_done_if (should_run_t.user 0)).next_command.2 ∧
    ((example_phase "P" [0]).is_done_if (should_run_t.user 0)).next_command.2.done
      example_functions example_exhausted.gdata = false ∧
    ((example_phase "P" [0]).is_done_if (should_run_t.user 0)).next_command.2.m_cmd_idx = 1 ∧
    (Integrator.next_command example_functions (Integrator.next_phase example_functions)
      example_exhausted).1 = .error Error.out_of_range ∧
    (Integrator.next_command example_functions (Integrator.next_phase example_functions)
      example_exhausted).2 = example_exhausted :=
  ⟨by decide, by decide, by decide,
   (Integrator.next_command_exhausted_not_done example_functions
      (Integrator.next_phase example_functions) example_exhausted
      ((example_phase "P" [0]).is_done_if (should_run_t.user 0)).next_command.2
      (by decide) (by decide) (by decide)).2.1,
   (Integrator.next_command_exhausted_not_done example_functions
      (Integrator.next_phase example_functions) example_exhausted
      ((example_phase "P" [0]).is_done_if (should_run_t.user 0)).next_command.2
      (by decide) (by decide) (by decide)).2.2.1⟩

/-! ## Kahan summation in exact arithmetic -/

section KahanProps

variable {R : Type} [AddCommGroup R]

theorem kahan_step_exact (qi sum : R) : kahan_step qi (sum, 0) = (sum + qi, 0) := by
  simp [kahan_step]

theorem kahan_sum_state_exact (q : Nat → R) : ∀ k : Nat,
    kahan_sum_state q k = ((Finset.range (k + 1)).sum q, 0) := by
  intro k
  induction k with
  | zero => simp [kahan_sum_state]
  | succ k ih =>
    have hstep : kahan_sum_state q (k + 1) = kahan_step (q (1 + k)) (kahan_sum_state q k) := by
      simp [kahan_sum_state, List.range'_concat, List.foldl_append]
    rw [hstep, ih, kahan_step_exact, Finset.sum_range_succ _ (k + 1), Nat.add_comm 1 k]

/-- C31: in exact arithmetic, for every array `q` and every `n >= 1`,
`kahan_sum(q, n)` equals `q[0] + ... + q[n-1]` and the correction term is zero
after every iteration of the loop; the overloads with three, four and five
arguments return the value of the array version applied to their arguments in
order. -/
theorem kahan_sum_exact (q : Nat → R) (n : Nat) (hn : 1 ≤ n) :
    kahan_sum q n = (Finset.range n).sum q ∧
    (∀ k : Nat, (kahan_sum_state q k).2 = 0 ∧
      (kahan_sum_state q k).1 = (Finset.range (k + 1)).sum q) ∧
    (∀ f1 f2 f3 : R, kahan_sum3 f1 f2 f3 = kahan_sum (array_of [f1, f2, f3]) 3 ∧
      kahan_sum3 f1 f2 f3 = f1 + f2 + f3) ∧
    (∀ f1 f2 f3 f4 : R,
      kahan_sum4 f1 f2 f3 f4 = kahan_sum (array_of [f1, f2, f3, f4]) 4 ∧
      kahan_sum4 f1 f2 f3 f4 = f1 + f2 + f3 + f4) ∧
    (∀ f1 f2 f3 f4 f5 : R,
      kahan_sum5 f1 f2 f3 f4 f5 = kahan_sum (array_of [f1, f2, f3, f4, f5]) 5 ∧
      kahan_sum5 f1 f2 f3 f4 f5 = f1 + f2 + f3 + f4 + f5) := by
  refine ⟨?_, ?_, ?_, ?_, ?_⟩
  · unfold kahan_sum
    rw [kahan_sum_state_exact q (n - 1), Nat.sub_add_cancel hn]
  · intro k
    rw [kahan_sum_state_exact q k]
    exact ⟨rfl, rfl⟩
  · intro f1 f2 f3
    exact ⟨rfl, by simp [kahan_sum3, kahan_step_exact]⟩
  · intro f1 f2 f3 f4
    exact ⟨rfl, by simp [kahan_sum4, kahan_step_exact]⟩
  · intro f1 f2 f3 f4 f5
    exact ⟨rfl, by simp [kahan_sum5, kahan_step_exact]⟩

theorem kahan_add_of_not {T : Type} [AddCommGroup T] (op_not : T → Bool) (val add kahan : T)
    (h : op_not add = true) : kahan_add op_not val add kahan = (val, kahan) := by
  simp [kahan_add, h]

theorem kahan_add_of_add {T : Type} [AddCommGroup T] (op_not : T → Bool) (val add kahan : T)
    (h : op_not add = false) :
    kahan_add op_not val add kahan = (val + add - kahan, 0) := by
  simp only [kahan_add, h, Bool.false_eq_true, if_false]
  refine Prod.ext ?_ ?_
  · show val + (add - kahan) = val + add - kahan
    abel
  · show val + (add - kahan) - val - (add - kahan) = 0
    abel

/-- C32: in exact arithmetic, `kahan_add(val, add, kahan)` increases the
compensated total `val - kahan` by `add`: when `add` is zero, `val` and `kahan`
are unchanged; otherwise `val` becomes `val + add - kahan` and `kahan` becomes
0.  The operators `!` of numbers, of `float3` and of `float4` hold exactly for
the zero of their type. -/
theorem kahan_add_exact {T : Type} [AddCommGroup T] (op_not : T → Bool)
    (hnot : ∀ v : T, op_not v = true ↔ v = 0) (val add kahan : T) :
    (kahan_add op_not val add kahan).1 - (kahan_add op_not val add kahan).2 =
      (val - kahan) + add ∧
    (add = 0 → kahan_add op_not val add kahan = (val, kahan)) ∧
    (add ≠ 0 → kahan_add op_not val add kahan = (val + add - kahan, 0)) ∧
    (∀ [DecidableEq T] (v : T), scalar_not v = true ↔ v = 0) ∧
    (∀ [DecidableEq T] (v : float3 T), float3_not v = true ↔ v = 0) ∧
    (∀ [DecidableEq T] (v : float4 T), float4_not v = true ↔ v = 0) := by
  have hzero : add = 0 → kahan_add op_not val add kahan = (val, kahan) :=
    fun h => kahan_add_of_not op_not val add kahan ((hnot add).mpr h)
  have hadd : add ≠ 0 → kahan_add op_not val add kahan = (val + add - kahan, 0) := by
    intro h
    apply kahan_add_of_add
    cases hb : op_not add with
    | false => rfl
    | true => exact absurd ((hnot add).mp hb) h
  refine ⟨?_, hzero, hadd, ?_, ?_, ?_⟩
  · by_cases h : add = 0
    · rw [hzero h, h]
      simp
    · rw [hadd h]
      show val + add - kahan - 0 = val - kahan + add
      abel
  · intro _ v
    simp [scalar_not]
  · intro _ v
    obtain ⟨x, y, z⟩ := v
    simp [float3_not, Prod.ext_iff, and_assoc]
  · intro _ v
    obtain ⟨x, y, z, w⟩ := v
    simp [float4_not, Prod.ext_iff, and_assoc]

end KahanProps

/-! ## Default flags, command traits and the box of a plane -/

/-- C33 counterexample: `ENABLE_DENSITY_SUM` is documented with
`@default{enable}` and is not set in `DEFAULT_FLAGS`, so not every flag
documented with `@default{enable}` is set in it. -/
theorem default_flags_counterexample :
    ENABLE_DENSITY_SUM ∈ documented_default_enable ∧
    ENABLE_DENSITY_SUM = 128 ∧
    DEFAULT_FLAGS = 1 ∧
    QUERY_ALL_FLAGS DEFAULT_FLAGS ENABLE_DENSITY_SUM = false ∧
    QUERY_ANY_FLAGS DEFAULT_FLAGS ENABLE_DENSITY_SUM = 0 ∧
    ¬ (∀ f ∈ documented_default_enable, QUERY_ALL_FLAGS DEFAULT_FLAGS f = true) := by
  decide

/-- C33 (as amended): `DEFAULT_FLAGS` is `ENABLE_DTADAPT` alone.  Every flag
documented with `@default{enable}` other than `ENABLE_DENSITY_SUM`, that is
`ENABLE_DTADAPT`, is set in `DEFAULT_FLAGS`, and every flag documented with
`@default{disable}` is not set in it; among the twelve simulation flags
`ENABLE_DTADAPT` is the only one set. -/
theorem default_flags_documented :
    DEFAULT_FLAGS = ENABLE_DTADAPT ∧
    (∀ f ∈ documented_default_enable, f ≠ ENABLE_DENSITY_SUM →
      QUERY_ALL_FLAGS DEFAULT_FLAGS f = true) ∧
    (∀ f ∈ documented_default_disable,
      QUERY_ALL_FLAGS DEFAULT_FLAGS f = false ∧ QUERY_ANY_FLAGS DEFAULT_FLAGS f = 0) ∧
    (∀ f ∈ simulation_flags, QUERY_ALL_FLAGS DEFAULT_FLAGS f = true ↔ f = ENABLE_DTADAPT) := by
  decide

/-- C33 witness: `ENABLE_DTADAPT` is documented with `@default{enable}` and is
set; `ENABLE_XSPH` is documented with `@default{disable}` and is not. -/
theorem default_flags_documented_witness :
    ENABLE_DTADAPT ∈ documented_default_enable ∧
    ENABLE_DTADAPT ≠ ENABLE_DENSITY_SUM ∧
    QUERY_ALL_FLAGS DEFAULT_FLAGS ENABLE_DTADAPT = true ∧
    ENABLE_XSPH ∈ documented_default_disable ∧
    QUERY_ANY_FLAGS DEFAULT_FLAGS ENABLE_XSPH = 0 :=
  ⟨by decide, by decide,
   default_flags_documented.2.1 ENABLE_DTADAPT (by decide) (by decide),
   by decide,
   (default_flags_documented.2.2.1 ENABLE_XSPH (by decide)).2⟩

/-- C34 counterexample: with a table of three commands, the code 3 has no
entry; `isCommandInternal` returns false for it and the trait of the primary
template is true. -/
theorem isCommandInternal_counterexample :
    example_table.length = 3 ∧
    isCommandInternal example_table 3 = false ∧
    CommandTraits.only_internal example_table 3 = true := by
  decide

/-- C34 (as amended): for every command code that has an entry in the command
definition table, `isCommandInternal(cmd)` returns the value of the trait
`CommandTraits<cmd>::only_internal`, so the default of
`CommandStruct::only_internal` agrees with the table; for a code without
entry `isCommandInternal` returns false and the trait is true. -/
theorem isCommandInternal_eq_trait (table : CommandTable) (cmd : CommandName)
    (h : cmd < table.length) :
    isCommandInternal table cmd = CommandTraits.only_internal table cmd ∧
    (CommandStruct.new table cmd).only_internal = CommandTraits.only_internal table cmd ∧
    isCommandInternal table cmd = (table.get ⟨cmd, h⟩).internal ∧
    (∀ other : CommandName, table.length ≤ other →
      isCommandInternal table other = false ∧
      CommandTraits.only_internal table other = true) := by
  have hget : table[cmd]? = some (table.get ⟨cmd, h⟩) := by
    rw [List.getElem?_eq_getElem h]; rfl
  refine ⟨?_, ?_, ?_, ?_⟩
  · simp [isCommandInternal, CommandTraits.only_internal, hget]
  · simp [CommandStruct.new, isCommandInternal, CommandTraits.only_internal, hget]
  · simp [isCommandInternal, hget]
  · intro other ho
    simp [isCommandInternal, CommandTraits.only_internal, List.getElem?_eq_none ho]

/-- C34 witness: the command 1 of the table of three commands. -/
theorem isCommandInternal_eq_trait_witness :
    1 < example_table.length ∧
    isCommandInternal example_table 1 = CommandTraits.only_internal example_table 1 ∧
    isCommandInternal example_table 1 = true :=
  ⟨by decide, (isCommandInternal_eq_trait example_table 1 (by decide)).1,
   (isCommandInternal_eq_trait example_table 1 (by decide)).2.2.1⟩

theorem Plane.getBoundingBox_output_max {D : Type} (ops : DoubleOps D) (p : Plane D)
    (output_min output_max : Point D) :
    (p.getBoundingBox ops output_min output_max).2 =
      Point.mk ops.INFINITY ops.INFINITY ops.INFINITY ∧
    (ops.is_zero p.m_a = true → ops.is_zero p.m_b = true →
      (p.getBoundingBox ops output_min output_max).1 =
        Point.mk ops.INFINITY ops.INFINITY (ops.div p.m_d p.m_c)) := by
  refine ⟨rfl, ?_⟩
  intro ha hb
  simp [Plane.getBoundingBox, ha, hb]

/-- C35: the code at the plane `z + 2 = 0`, where `a = b = 0`, in exact
arithmetic: `output_min` is `(inf, inf, 2)` and `output_max` is
`(inf, inf, inf)`, so the two differ. -/
theorem Plane.getBoundingBox_not_degenerate :
    (Plane.getBoundingBox exact_ops ⟨some 0, some 0, some 1, some 2⟩
        ⟨some 0, some 0, some 0⟩ ⟨some 0, some 0, some 0⟩).1 = ⟨none, none, some 2⟩ ∧
    (Plane.getBoundingBox exact_ops ⟨some 0, some 0, some 1, some 2⟩
        ⟨some 0, some 0, some 0⟩ ⟨some 0, some 0, some 0⟩).2 = ⟨none, none, none⟩ ∧
    (Plane.getBoundingBox exact_ops ⟨some 0, some 0, some 1, some 2⟩
        ⟨some 0, some 0, some 0⟩ ⟨some 0, some 0, some 0⟩).1 ≠
      (Plane.getBoundingBox exact_ops ⟨some 0, some 0, some 1, some 2⟩
        ⟨some 0, some 0, some 0⟩ ⟨some 0, some 0, some 0⟩).2 := by
  have hmin : (Plane.getBoundingBox exact_ops ⟨some 0, some 0, some 1, some 2⟩
      ⟨some 0, some 0, some 0⟩ ⟨some 0, some 0, some 0⟩).1 = ⟨none, none, some 2⟩ := by
    simp [Plane.getBoundingBox, exact_ops]
  refine ⟨hmin, rfl, ?_⟩
  rw [hmin]
  intro h
  cases h

/-- C31 witness: the array `1/2, 1/3, 1/6` of rationals, whose sum is 1. -/
theorem kahan_sum_exact_witness :
    1 ≤ 3 ∧
    kahan_sum (array_of [(1 / 2 : ℚ), 1 / 3, 1 / 6]) 3 = 1 ∧
    kahan_sum3 (1 / 2 : ℚ) (1 / 3) (1 / 6) = 1 :=
  ⟨by decide,
   (kahan_sum_exact (array_of [(1 / 2 : ℚ), 1 / 3, 1 / 6]) 3 (by decide)).1.trans
     (by norm_num [Finset.sum_range_succ, array_of]),
   ((kahan_sum_exact (array_of [(1 / 2 : ℚ), 1 / 3, 1 / 6]) 3 (by decide)).2.2.1
      (1 / 2) (1 / 3) (1 / 6)).2.trans (by norm_num)⟩

/-- C32 witness: on the rationals, with `val = 10`, `add = 1/2` and
`kahan = 1/4`, and with `add = 0`. -/
theorem kahan_add_exact_witness :
    (∀ v : ℚ, scalar_not v = true ↔ v = 0) ∧
    kahan_add scalar_not (10 : ℚ) (1 / 2) (1 / 4) = (10 + 1 / 2 - 1 / 4, 0) ∧
    kahan_add scalar_not (10 : ℚ) 0 (1 / 4) = (10, 1 / 4) :=
  ⟨fun v => by simp [scalar_not],
   (kahan_add_exact scalar_not (fun v => by simp [scalar_not]) (10 : ℚ) (1 / 2)
      (1 / 4)).2.2.1 (by norm_num),
   (kahan_add_exact scalar_not (fun v => by simp [scalar_not]) (10 : ℚ) 0
      (1 / 4)).2.1 rfl⟩

end GPUSPH
